import Mathlib

/-!
# Verification of the roborev review-job pipeline

Shallow embedding of the roborev job store (`internal/storage`), the prompt
builder (`internal/prompt`) and the agent runners (`internal/agent`),
together with proofs settling the specification claims about them.

The SQLite store is modelled as an explicit state (`Store`): each SQL
statement of the source becomes a pure state transformation.  Statement-level
atomicity (a single `UPDATE`, or an explicit transaction) is inherited from
the database engine, so a store operation is one step of the model.
Timestamps are naturals, text is `String` (for the store) or `List Char`
(for the prompt builder, where the source counts bytes; all size-relevant
constants are ASCII, so characters coincide with bytes).
-/

namespace Roborev

/-- Job status column values, from the `review_jobs` schema check constraint
`status IN ('queued','running','done','failed')` (db.go). -/
inductive JobStatus where
  | queued
  | running
  | done
  | failed
deriving DecidableEq, Repr

/-- A row of `review_jobs` (db.go schema).  `repo_id`, `commit_id`, `git_ref`
and `agent` are carried but never branched on by the modelled operations. -/
structure Job where
  id : Nat
  repoId : Nat
  commitId : Option Nat
  gitRef : String
  agent : String
  status : JobStatus
  enqueuedAt : Nat
  startedAt : Option Nat
  finishedAt : Option Nat
  workerId : Option String
  error : Option String
deriving DecidableEq, Repr

/-- A row of `reviews` (db.go schema): `job_id UNIQUE NOT NULL`, agent,
prompt, output, creation time. -/
structure Review where
  jobId : Nat
  agent : String
  prompt : String
  output : String
  createdAt : Nat
deriving DecidableEq, Repr

/-- The job/review part of the database.  `nextId` models the SQLite
`INTEGER PRIMARY KEY` auto-increment for `review_jobs`. -/
structure Store where
  jobs : List Job
  reviews : List Review
  nextId : Nat
deriving DecidableEq, Repr

/-- The empty database, as created by `Open` (db.go). -/
def emptyStore : Store := { jobs := [], reviews := [], nextId := 0 }

/-- `EnqueueJob` (jobs.go): `INSERT INTO review_jobs (...) VALUES (..., 'queued')`. -/
def enqueueJob (repoId : Nat) (commitId : Option Nat) (gitRef agent : String)
    (t : Nat) (s : Store) : Store :=
  { s with
    jobs := s.jobs ++ [{
      id := s.nextId
      repoId := repoId
      commitId := commitId
      gitRef := gitRef
      agent := agent
      status := .queued
      enqueuedAt := t
      startedAt := none
      finishedAt := none
      workerId := none
      error := none }]
    nextId := s.nextId + 1 }

/-- The queued rows of the store, in table (rowid) order. -/
def queuedJobs (s : Store) : List Job :=
  s.jobs.filter (fun j => decide (j.status = JobStatus.queued))

/-- Ids of the queued rows. -/
def queuedIds (s : Store) : List Nat := (queuedJobs s).map (·.id)

/-- Number of queued rows. -/
def queuedCount (s : Store) : Nat := (queuedJobs s).length

/-- The correlated subquery of `ClaimJob` (jobs.go):
`SELECT id FROM review_jobs WHERE status = 'queued' ORDER BY enqueued_at LIMIT 1`.
Picks the row with minimal `enqueued_at`; ties resolve to the earlier row in
table order. -/
def selectOldest : List Job → Option Job
  | [] => none
  | j :: rest =>
    match selectOldest rest with
    | none => some j
    | some b => if b.enqueuedAt < j.enqueuedAt then some b else some j

/-- `ClaimJob` (jobs.go): one `UPDATE review_jobs SET status='running',
worker_id=?, started_at=? WHERE id = (subquery)`, followed by fetching the
claimed row.  The single-statement update is the atomic step; the model
returns the updated row directly (the source re-reads it by
`worker_id`/`status='running'`, which for a worker with a fresh id is the
same row). -/
def claimJob (w : String) (now : Nat) (s : Store) : Option Job × Store :=
  match selectOldest (queuedJobs s) with
  | none => (none, s)
  | some j =>
    let j2 := { j with status := JobStatus.running, workerId := some w, startedAt := some now }
    (some j2, { s with jobs := s.jobs.map fun x => if x.id = j.id then j2 else x })

/-- A sequence of `ClaimJob` calls, one per worker, in the (arbitrary)
serialization order that the database gives the atomic claim statements. -/
def claimAll (ws : List String) (now : Nat) (s : Store) : List (Option Job) × Store :=
  match ws with
  | [] => ([], s)
  | w :: rest =>
    let p := claimJob w now s
    let q := claimAll rest now p.2
    (p.1 :: q.1, q.2)

/-- Ids of the successful results of a batch of claims. -/
def successIds (rs : List (Option Job)) : List Nat :=
  rs.filterMap (fun r => r.map (·.id))

/-- `CompleteJob` (jobs.go): one transaction containing
`UPDATE review_jobs SET status='done', finished_at=? WHERE id=?` and
`INSERT INTO reviews (job_id, agent, prompt, output) VALUES (...)`.
`failUpdate`/`failInsert` inject a failure of the respective statement;
the insert also fails on the `UNIQUE(job_id)` constraint.  On any failure
the deferred rollback restores the pre-call state.  Returns
(committed?, resulting store). -/
def completeJob (jobId : Nat) (agent prompt output : String) (now : Nat)
    (failUpdate failInsert : Bool) (s : Store) : Bool × Store :=
  if failUpdate then (false, s)
  else
    let s1 : Store :=
      { s with jobs := s.jobs.map fun j =>
          if j.id = jobId then { j with status := JobStatus.done, finishedAt := some now } else j }
    if failInsert || s.reviews.any (fun r => r.jobId = jobId) then (false, s)
    else
      (true, { s1 with reviews := s1.reviews ++
        [{ jobId := jobId, agent := agent, prompt := prompt, output := output, createdAt := now }] })

/-- `FailJob` (jobs.go): `UPDATE review_jobs SET status='failed',
finished_at=?, error=? WHERE id=?`.  No guard on the current status. -/
def failJob (jobId : Nat) (errorMsg : String) (now : Nat) (s : Store) : Store :=
  { s with jobs := s.jobs.map fun j =>
      if j.id = jobId then { j with status := JobStatus.failed, finishedAt := some now, error := some errorMsg } else j }

/-- `ResetStaleJobs` (db.go): `UPDATE review_jobs SET status='queued',
worker_id=NULL, started_at=NULL WHERE status='running'`. -/
def resetStaleJobs (s : Store) : Store :=
  { s with jobs := s.jobs.map fun j =>
      if j.status = JobStatus.running then
        { j with status := JobStatus.queued, workerId := none, startedAt := none }
      else j }

/-- One store operation, with all call parameters (including injected
transaction failures for `complete`). -/
inductive Op where
  | enqueue (repoId : Nat) (commitId : Option Nat) (gitRef agent : String) (t : Nat)
  | claim (w : String) (now : Nat)
  | complete (jobId : Nat) (agent prompt output : String) (now : Nat) (failUpdate failInsert : Bool)
  | fail (jobId : Nat) (msg : String) (now : Nat)
  | reset
deriving DecidableEq, Repr

/-- Effect of one operation on the store (a failed `complete` transaction
rolls back to the pre-call state). -/
def applyOp (op : Op) (s : Store) : Store :=
  match op with
  | .enqueue repoId commitId gitRef agent t => enqueueJob repoId commitId gitRef agent t s
  | .claim w now => (claimJob w now s).2
  | .complete jobId agent prompt output now fU fI => (completeJob jobId agent prompt output now fU fI s).2
  | .fail jobId msg now => failJob jobId msg now s
  | .reset => resetStaleJobs s

/-- Run a sequence of operations from the empty database. -/
def runOps (ops : List Op) : Store := ops.foldl (fun s op => applyOp op s) emptyStore

/-- Status of the job with a given id, if present (`find?` on the primary key). -/
def statusOf (s : Store) (i : Nat) : Option JobStatus :=
  (s.jobs.find? (fun j => j.id = i)).map (·.status)

/-- Number of review rows associated with a job id. -/
def reviewCount (s : Store) (i : Nat) : Nat :=
  (s.reviews.filter (fun r => decide (r.jobId = i))).length

/-- Well-formedness maintained by the schema: primary keys are distinct and
below the auto-increment counter. -/
structure StoreWF (s : Store) : Prop where
  nodup : (s.jobs.map (·.id)).Nodup
  idLt : ∀ j ∈ s.jobs, j.id < s.nextId

/-- Whether an operation is the stale-recovery reset. -/
def isResetOp : Op → Bool
  | .reset => true
  | _ => false

/-- The forward transitions the spec allows for one observation of a job id:
unchanged, creation as `queued`, `queued → running`, `running → done`,
`running → failed`, and `running → queued` only for the reset operation. -/
def forwardOK (isReset : Bool) (before after : Option JobStatus) : Bool :=
  if before = after then true
  else
    match before, after with
    | none, some .queued => true
    | some .queued, some .running => true
    | some .running, some .done => true
    | some .running, some .failed => true
    | some .running, some .queued => isReset
    | _, _ => false

/-- Every step of the run moves every job id forward in the sense of
`forwardOK`. -/
def ForwardRun (s : Store) : List Op → Prop
  | [] => True
  | op :: ops =>
    (∀ i : Nat, forwardOK (isResetOp op) (statusOf s i) (statusOf (applyOp op s) i) = true)
    ∧ ForwardRun (applyOp op s) ops

/-- The worker calling discipline: `complete` and `fail` are only invoked on
a job the caller has claimed, i.e. one that is currently `running`. -/
def DisciplinedOp (op : Op) (s : Store) : Prop :=
  match op with
  | .complete jobId _ _ _ _ _ _ => statusOf s jobId = some JobStatus.running
  | .fail jobId _ _ => statusOf s jobId = some JobStatus.running
  | _ => True

/-- Every operation of the run respects the worker calling discipline. -/
def DisciplinedRun (s : Store) : List Op → Prop
  | [] => True
  | op :: ops => DisciplinedOp op s ∧ DisciplinedRun (applyOp op s) ops

/-- Reachability invariant: well-formed keys, every `done` job has a review,
and each job id has at most one review (`UNIQUE(job_id)`). -/
structure Inv (s : Store) : Prop where
  wf : StoreWF s
  doneReview : ∀ j ∈ s.jobs, j.status = JobStatus.done → ∃ r ∈ s.reviews, r.jobId = j.id
  reviewOnce : ∀ i, reviewCount s i ≤ 1

end Roborev

namespace Roborev

/-! ## Prompt builder model

Text is `List Char`; the source measures and slices byte counts
(`strings.Builder.Len`, `diff[:n]`), which agree with character counts on
the ASCII constants involved. -/

/-- Prompt text. -/
abbrev Str := List Char

/-- Literal text. -/
def str (s : String) : Str := s.toList

/-- `MaxPromptSize` (prompt.go): 250 KB. -/
def maxPromptSize : Nat := 250 * 1024

/-- `maxFenceLength` (prompt.go). -/
def maxFenceLength : Nat := 10

/-- `maxDisplayPathLength` (prompt.go). -/
def maxDisplayPathLength : Nat := 500

/-- `ContextFilesHeader` (prompt.go). -/
def contextFilesHeader : Str :=
  str "\n## Context Files\n\nThe following files provide additional context for this repository (e.g., ADRs, architecture docs).\nUse this information to better understand the project's design decisions and conventions.\n"

/-- `ProjectGuidelinesHeader` (prompt.go). -/
def projectGuidelinesHeader : Str :=
  str "\n## Project Guidelines\n\nThe following are project-specific guidelines for this repository. Take these into account\nwhen reviewing the code - they may override or supplement the default review criteria.\n"

/-- `PreviousReviewsHeader` (prompt.go). -/
def previousReviewsHeader : Str :=
  str "\n## Previous Reviews\n\nThe following are reviews of recent commits in this repository. Use them as context\nto understand ongoing work and to check if the current commit addresses previous feedback.\n\n**Important:** Reviews may include responses from developers. Pay attention to these responses -\nthey may indicate known issues that should be ignored, explain why certain patterns exist,\nor provide context that affects how you should evaluate similar code in the current commit.\n"

/-- `PreviousAttemptsForCommitHeader` (prompt.go). -/
def previousAttemptsForCommitHeader : Str :=
  str "\n## Previous Review Attempts\n\nThis commit has been reviewed before. The following are previous review results and any\nresponses from developers. Use this context to:\n- Avoid repeating issues that have been marked as known/acceptable\n- Check if previously identified issues are still present\n- Consider developer responses about why certain patterns exist\n"

/-- The truncation notice appended by `writeContextFiles` (prompt.go). -/
def truncationNotice : Str := str "... (context truncated due to size)\n\n"

/-- One step of the backtick-run scan of `fenceForContent` (prompt.go):
state is (maxRun, currentRun). -/
def fenceScanStep (p : Nat × Nat) (r : Char) : Nat × Nat :=
  if r = '`' then
    let c := p.2 + 1
    (if p.1 < c then c else p.1, c)
  else (p.1, 0)

/-- `fenceForContent` (prompt.go): a backtick fence longer than any backtick
run in the content, minimum 3 (`maxRun` starts at 2); `none` when the fence
would exceed `maxFenceLength`. -/
def fenceForContent (content : Str) : Option Str :=
  let maxRun := (content.foldl fenceScanStep (2, 0)).1
  let fenceLen := maxRun + 1
  if maxFenceLength < fenceLen then none
  else some (List.replicate fenceLen '`')

/-- The length of the longest run of consecutive backticks in a text
(the quantity the fence-safety claim calls F): the same scan started
from zero. -/
def longestRun (content : Str) : Nat :=
  (content.foldl fenceScanStep (0, 0)).1

/-- `isUnsafePathChar` (prompt.go).  Go's `unicode.IsControl` (category Cc)
is the ranges U+0000..U+001F and U+007F..U+009F. -/
def isUnsafePathChar (r : Char) : Bool :=
  if r.toNat < 32 || r.toNat = 127 then true
  else if 127 ≤ r.toNat && r.toNat ≤ 159 then true
  else if (0x202A ≤ r.toNat && r.toNat ≤ 0x202E) || (0x2066 ≤ r.toNat && r.toNat ≤ 0x2069) then true
  else if r.toNat = 0x2028 || r.toNat = 0x2029 then true
  else false

/-- Loop of `sanitizeDisplayPath` (prompt.go): replace unsafe characters,
and after `maxDisplayPathLength` written characters append "..." and stop. -/
def sanitizeLoop : Str → Str → Str
  | acc, [] => acc
  | acc, r :: rest =>
    let acc2 := acc ++ [if isUnsafePathChar r then '_' else r]
    if maxDisplayPathLength ≤ acc2.length then acc2 ++ str "..."
    else sanitizeLoop acc2 rest

/-- `sanitizeDisplayPath` (prompt.go). -/
def sanitizeDisplayPath (path : Str) : Str := sanitizeLoop [] path

/-! ## Filesystem model for context-file collection

Paths are clean absolute paths given as component lists (the domain of
`filepath.Abs`/`filepath.EvalSymlinks` outputs).  The OS surface used by
`collectContextEntries` — symlink resolution, `Lstat`/`Stat`, sizes,
contents and glob expansion — is an abstract structure, so the theorems
hold for every filesystem, including adversarial symlink chains. -/

/-- A clean absolute path, as its list of components. -/
abbrev FPath := List String

/-- File kind as seen by `Lstat`/`Stat`. -/
inductive FileKind where
  | regular
  | symlink
  | dir
  | other
deriving DecidableEq, Repr

/-- The filesystem operations used by the context-file collector.
`resolve` is `filepath.EvalSymlinks` (follows symlink chains of any length,
`none` on failure); `stat` follows symlinks, `lstat` does not; `glob` is
`filepath.Glob` of the pattern joined under the repository root. -/
structure FS where
  resolve : FPath → Option FPath
  lstat : FPath → Option FileKind
  stat : FPath → Option FileKind
  size : FPath → Nat
  content : FPath → Str
  glob : String → List FPath

/-- Length of the common component prefix of two paths. -/
def commonPrefixLen : List String → List String → Nat
  | a :: as, b :: bs => if a = b then commonPrefixLen as bs + 1 else 0
  | _, _ => 0

/-- `filepath.Rel(base, target)` for clean absolute paths: one ".." per
base component beyond the common prefix, then the rest of the target. -/
def relComponents (base target : FPath) : List String :=
  let c := commonPrefixLen base target
  List.replicate (base.length - c) ".." ++ target.drop c

/-- `isInsideRepo` (prompt.go): the relative path from the repository root
must not start with a ".." component (the source checks `rel == ".."` and
`strings.HasPrefix(rel, "../")`; an absolute `rel` cannot arise here). -/
def isInsideRepo (repoAbs target : FPath) : Bool :=
  match relComponents repoAbs target with
  | [] => true
  | c :: _ => if c = ".." then false else true

/-- `filepath.Join` of a clean absolute base and a relative pattern path:
lexical cleaning, ".." pops a component, "." disappears. -/
def cleanAppend (base : FPath) (rel : List String) : FPath :=
  rel.foldl (fun acc c => if c = ".." then acc.dropLast else if c = "." then acc else acc ++ [c]) base

/-- Render a relative component path the way `filepath.Rel` returns it
(components joined by the separator), for display purposes. -/
def renderRel (rel : List String) : Str := str (String.intercalate "/" rel)

/-- A validated context file (`contextEntry` in prompt.go).  The
`validatedInfo` used for the TOCTOU re-check is not carried: the model
filesystem is immutable between validation and read. -/
structure ContextEntry where
  displayPath : Str
  resolvedPath : FPath
  size : Nat
deriving DecidableEq, Repr

/-- `validateContextFile` (prompt.go): lexical containment check, symlink
resolution, containment check of the resolution, regular-file check, and
deduplication by canonical resolved path.  Returns the entry and the
updated `seen` set. -/
def validateContextFile (fs : FS) (repoAbs absPath : FPath) (seen : List FPath) :
    Option (ContextEntry × List FPath) :=
  if !isInsideRepo repoAbs absPath then none
  else
    match fs.resolve absPath with
    | none => none
    | some resolved =>
      if !isInsideRepo repoAbs resolved then none
      else
        match fs.stat resolved with
        | none => none
        | some k =>
          if k ≠ FileKind.regular then none
          else if resolved ∈ seen then none
          else
            some ({ displayPath := sanitizeDisplayPath (renderRel (relComponents repoAbs absPath))
                    resolvedPath := resolved
                    size := fs.size resolved }, resolved :: seen)

/-- A configured context-file pattern.  The source branches on whether the
pattern string contains a glob metacharacter (`*?[`); the two branches are
the two constructors. -/
inductive CtxPattern where
  | lit (rel : List String)
  | globPat (pat : String)
deriving DecidableEq, Repr

/-- The candidate paths a pattern contributes (the paths handed to
`validateContextFile`): glob matches as returned by the OS, or the joined
literal path when `Lstat` reports a regular file or symlink. -/
def patternCandidates (fs : FS) (repoAbs : FPath) : CtxPattern → List FPath
  | .globPat g => fs.glob g
  | .lit rel =>
    let absPath := cleanAppend repoAbs rel
    match fs.lstat absPath with
    | none => []
    | some k =>
      if k = FileKind.regular || k = FileKind.symlink then [absPath] else []

/-- All candidate paths of a pattern list, in configuration order. -/
def candidatePaths (fs : FS) (repoAbs : FPath) (patterns : List CtxPattern) : List FPath :=
  (patterns.map (patternCandidates fs repoAbs)).flatten

/-- The validation fold of `collectContextEntries` (prompt.go), threading
the deduplication set. -/
def validateFold (fs : FS) (repoAbs : FPath) : List FPath → List FPath → List ContextEntry
  | [], _ => []
  | c :: rest, seen =>
    match validateContextFile fs repoAbs c seen with
    | none => validateFold fs repoAbs rest seen
    | some (e, seen2) => e :: validateFold fs repoAbs rest seen2

/-- `collectContextEntries` (prompt.go): canonicalize the repository root
itself, expand every pattern, validate every candidate. -/
def collectContextEntries (fs : FS) (repoPath : FPath) (patterns : List CtxPattern) :
    List ContextEntry :=
  let repoAbs := (fs.resolve repoPath).getD repoPath
  validateFold fs repoAbs (candidatePaths fs repoAbs patterns) []

/-- `readContextFileWithTOCTOUCheck` (prompt.go) on the immutable model
filesystem: empty for a non-positive byte budget, otherwise the content
truncated to the budget. -/
def readContextFile (fs : FS) (p : FPath) (maxBytes : Int) : Str :=
  if maxBytes ≤ 0 then [] else (fs.content p).take maxBytes.toNat

/-- `strings.TrimSuffix(s, "\n")`. -/
def trimSuffixNewline (s : Str) : Str :=
  if s.getLast? = some '\n' then s.dropLast else s

/-- Header bytes reserved before the first context file is committed. -/
def ctxHeaderLen : Nat := contextFilesHeader.length + 1

/-- The `maxRead` estimate of `writeContextFiles` (prompt.go): budget minus
content so far, minus the conservative per-file overhead estimate
(display path + 50), minus the section header when none is written yet.
Go `int` arithmetic can go negative, hence `Int`. -/
def ctxMaxRead (budget contentLen dpLen : Nat) (wroteAny : Bool) : Int :=
  (budget : Int) - contentLen - (dpLen + 50) - (if wroteAny then 0 else (ctxHeaderLen : Int))

/-- The exact per-file heading `### <path>\n\n<fence>\n` (prompt.go). -/
def ctxHeading (dp fence : Str) : Str :=
  str "### " ++ dp ++ str "\n\n" ++ fence ++ str "\n"

/-- The exact per-file closing `\n<fence>\n\n` (prompt.go). -/
def ctxClosing (fence : Str) : Str := str "\n" ++ fence ++ str "\n\n"

/-- The bytes a file contributes if committed: heading + body + closing,
plus the section header when it is the first file (the source's
`totalAfterWrite` minus the prior content). -/
def ctxEntryTotal (dp fence fileContent : Str) (wroteAny : Bool) : Nat :=
  (ctxHeading dp fence).length + fileContent.length + (ctxClosing fence).length
    + (if wroteAny then 0 else ctxHeaderLen)

/-- The content after committing a file (prompt.go: header on first write,
then heading, body, closing). -/
def ctxCommit (content dp fence fileContent : Str) (wroteAny : Bool) : Str :=
  (if wroteAny then content else content ++ contextFilesHeader ++ str "\n")
    ++ ctxHeading dp fence ++ fileContent ++ ctxClosing fence

/-- The assembly loop of `writeContextFiles` (prompt.go).  State is the
section content so far, whether any file was written, and the truncation
flag; returns the final (content, wroteAny, truncated). -/
def writeCtxLoop (fs : FS) (budget : Nat) :
    List ContextEntry → Str → Bool → Str × Bool × Bool
  | [], content, wroteAny => (content, wroteAny, false)
  | e :: rest, content, wroteAny =>
    if ctxMaxRead budget content.length e.displayPath.length wroteAny ≤ 0 then
      (content, wroteAny, true)
    else
      match fenceForContent (trimSuffixNewline (readContextFile fs e.resolvedPath
          (ctxMaxRead budget content.length e.displayPath.length wroteAny))) with
      | none => writeCtxLoop fs budget rest content wroteAny
      | some fence =>
        if budget < content.length
            + ctxEntryTotal e.displayPath fence
                (trimSuffixNewline (readContextFile fs e.resolvedPath
                  (ctxMaxRead budget content.length e.displayPath.length wroteAny))) wroteAny then
          (content, wroteAny, true)
        else
          if (readContextFile fs e.resolvedPath
              (ctxMaxRead budget content.length e.displayPath.length wroteAny)).length
              < e.size then
            (ctxCommit content e.displayPath fence
              (trimSuffixNewline (readContextFile fs e.resolvedPath
                (ctxMaxRead budget content.length e.displayPath.length wroteAny))) wroteAny,
             true, true)
          else
            writeCtxLoop fs budget rest
              (ctxCommit content e.displayPath fence
                (trimSuffixNewline (readContextFile fs e.resolvedPath
                  (ctxMaxRead budget content.length e.displayPath.length wroteAny))) wroteAny)
              true

/-- `writeContextFiles` (prompt.go): the text appended to the prompt for
the context-files section (empty when nothing is written). -/
def writeContextFiles (fs : FS) (repoPath : FPath) (patterns : List CtxPattern)
    (budget : Nat) : Str :=
  if patterns = [] then []
  else if collectContextEntries fs repoPath patterns = [] then []
  else if (writeCtxLoop fs budget (collectContextEntries fs repoPath patterns) [] false).2.1
      = false then []
  else
    (writeCtxLoop fs budget (collectContextEntries fs repoPath patterns) [] false).1
      ++ (if (writeCtxLoop fs budget (collectContextEntries fs repoPath patterns) [] false).2.2
          then truncationNotice else [])

/-! ## Prompt assembly

The builders below translate `BuildDirty`, `buildSinglePrompt` and
`buildRangePrompt` (prompt.go).  Data obtained from external collaborators
— the system prompt (`GetSystemPrompt`, defined outside the reviewed
sources), the repository configuration, and the git/store lookups for
historical context — enters as parameters; a `none`/empty parameter covers
both absence and a failed lookup, which the source treats identically
(the section is skipped).  `fmt`'s `%q` is modelled as plain quoting. -/

/-- Repository configuration consumed by the builders
(`review_guidelines`, `context_files`). -/
structure RepoConfig where
  reviewGuidelines : Str
  contextFiles : List CtxPattern

/-- A historical review context row (`ReviewContext` in prompt.go):
commit SHA, review output if any, and the responses to it. -/
structure ReviewContextM where
  sha : Str
  review : Option Str
  responses : List (Str × Str)
deriving DecidableEq

/-- A prior review of the exact same git ref, as returned by
`GetAllReviewsForGitRef`: agent, formatted creation time, output, whether
`JobID > 0`, and the comments on its job. -/
structure AttemptReview where
  agent : Str
  createdAtText : Str
  output : Str
  jobIdPos : Bool
  responses : List (Str × Str)
deriving DecidableEq

/-- `strings.TrimSpace` (whitespace trimmed from both ends). -/
def trimSpace (s : Str) : Str :=
  ((s.dropWhile Char.isWhitespace).reverse.dropWhile Char.isWhitespace).reverse

/-- `writeProjectGuidelines` (prompt.go). -/
def writeProjectGuidelines (guidelines : Str) : Str :=
  if guidelines = [] then []
  else projectGuidelinesHeader ++ str "\n" ++ trimSpace guidelines ++ str "\n\n"

/-- Short SHA display: first seven characters when longer than seven. -/
def shortSHA (sha : Str) : Str := if 7 < sha.length then sha.take 7 else sha

/-- One response line `- responder: "response"`. -/
def renderResponse (p : Str × Str) : Str :=
  str "- " ++ p.1 ++ str ": " ++ ('"' :: p.2 ++ ['"']) ++ str "\n"

/-- One block of `writePreviousReviews` (prompt.go). -/
def renderReviewContext (c : ReviewContextM) : Str :=
  str "--- Review for commit " ++ shortSHA c.sha ++ str " ---\n"
    ++ (match c.review with
        | some o => o
        | none => str "No review available.")
    ++ str "\n"
    ++ (if c.responses ≠ [] then
          str "\nComments on this review:\n" ++ (c.responses.map renderResponse).flatten
        else [])
    ++ str "\n"

/-- `writePreviousReviews` (prompt.go): header, then the contexts oldest
first (the source iterates the list backwards). -/
def writePreviousReviews (contexts : List ReviewContextM) : Str :=
  previousReviewsHeader ++ str "\n" ++ (contexts.reverse.map renderReviewContext).flatten

/-- One block of `writePreviousAttemptsForGitRef` (prompt.go); `i` is the
zero-based position. -/
def renderAttempt (i : Nat) (a : AttemptReview) : Str :=
  str "--- Review Attempt " ++ str (toString (i + 1)) ++ str " (" ++ a.agent
    ++ str ", " ++ a.createdAtText ++ str ") ---\n"
    ++ a.output ++ str "\n"
    ++ (if a.jobIdPos && !decide (a.responses = []) then
          str "\nComments on this review:\n" ++ (a.responses.map renderResponse).flatten
        else [])
    ++ str "\n"

/-- `writePreviousAttemptsForGitRef` (prompt.go): nothing when the lookup
fails or returns no rows. -/
def writePreviousAttempts (attempts : List AttemptReview) : Str :=
  if attempts = [] then []
  else
    previousAttemptsForCommitHeader ++ str "\n"
      ++ (attempts.enum.map (fun p => renderAttempt p.1 p.2)).flatten

/-- The fenced diff block shared by all three builders: ```` ```diff ````,
the diff, a newline unless the diff already ends in one, closing fence. -/
def diffBlock (diff : Str) : Str :=
  str "```diff\n" ++ diff
    ++ (if diff.getLast? = some '\n' then [] else str "\n")
    ++ str "```\n"

/-- The guidelines-and-context-files block emitted when the repository
configuration loads. -/
def configSections (cfg : Option RepoConfig) (fs : FS) (repoPath : FPath) : Str :=
  match cfg with
  | none => []
  | some c =>
    writeProjectGuidelines c.reviewGuidelines
      ++ writeContextFiles fs repoPath c.contextFiles (maxPromptSize / 4)

/-- The previous-reviews block: emitted when historical context was
requested (`contextCount > 0`, store handle present), the lookup succeeded
and returned at least one row. -/
def previousReviewsSection (contextCount : Nat) (ctxFetch : Option (List ReviewContextM)) : Str :=
  if 0 < contextCount then
    match ctxFetch with
    | some ctxs => if ctxs ≠ [] then writePreviousReviews ctxs else []
    | none => []
  else []

/-- Everything `BuildDirty` (prompt.go) assembles before the diff. -/
def dirtyPrefix (sysPrompt : Str) (cfg : Option RepoConfig) (fs : FS) (repoPath : FPath)
    (contextCount : Nat) (ctxFetch : Option (List ReviewContextM)) : Str :=
  sysPrompt ++ str "\n"
    ++ configSections cfg fs repoPath
    ++ previousReviewsSection contextCount ctxFetch
    ++ str "## Uncommitted Changes\n\n"
    ++ str "The following changes have not yet been committed.\n\n"

/-- `BuildDirty` (prompt.go): if the full diff section would push the
prompt past `MaxPromptSize`, a note replaces it and the diff is truncated
in place to the remaining room (only when more than 1000 bytes remain). -/
def buildDirty (sysPrompt : Str) (cfg : Option RepoConfig) (fs : FS) (repoPath : FPath)
    (contextCount : Nat) (ctxFetch : Option (List ReviewContextM)) (diff : Str) : Str :=
  let sb := dirtyPrefix sysPrompt cfg fs repoPath contextCount ctxFetch
  let ds := str "### Diff\n\n" ++ diffBlock diff
  if maxPromptSize < sb.length + ds.length then
    let sb2 := sb ++ str "### Diff\n\n" ++ str "(Diff too large to include in full)\n"
    let maxDiffLen : Int := (maxPromptSize : Int) - sb2.length - 100
    if 1000 < maxDiffLen then
      sb2 ++ str "```diff\n" ++ diff.take maxDiffLen.toNat ++ str "\n... (truncated)\n" ++ str "```\n"
    else sb2
  else sb ++ ds

/-- Everything `buildSinglePrompt` (prompt.go) assembles before the diff. -/
def singlePrefix (sysPrompt : Str) (cfg : Option RepoConfig) (fs : FS) (repoPath : FPath)
    (contextCount : Nat) (ctxFetch : Option (List ReviewContextM))
    (attempts : List AttemptReview) (sha author subject body : Str) : Str :=
  sysPrompt ++ str "\n"
    ++ configSections cfg fs repoPath
    ++ previousReviewsSection contextCount ctxFetch
    ++ writePreviousAttempts attempts
    ++ str "## Current Commit\n\n"
    ++ str "**Commit:** " ++ shortSHA sha ++ str "\n"
    ++ str "**Author:** " ++ author ++ str "\n"
    ++ str "**Subject:** " ++ subject ++ str "\n"
    ++ (if body ≠ [] then str "\n**Message:**\n" ++ body ++ str "\n" else [])
    ++ str "\n"

/-- `buildSinglePrompt` (prompt.go): when the diff section would exceed
`MaxPromptSize` the diff is replaced by an out-of-band pointer
(`git show <sha>`). -/
def buildSinglePrompt (sysPrompt : Str) (cfg : Option RepoConfig) (fs : FS) (repoPath : FPath)
    (contextCount : Nat) (ctxFetch : Option (List ReviewContextM))
    (attempts : List AttemptReview) (sha author subject body diff : Str) : Str :=
  let sb := singlePrefix sysPrompt cfg fs repoPath contextCount ctxFetch attempts sha author subject body
  let ds := str "### Diff\n\n" ++ diffBlock diff
  if maxPromptSize < sb.length + ds.length then
    sb ++ str "### Diff\n\n"
      ++ str "(Diff too large to include - please review the commit directly)\n"
      ++ str "View with: git show " ++ sha ++ str "\n"
  else sb ++ ds

/-- One line of the commit listing of `buildRangePrompt`; the subject is
absent when `GetCommitInfo` failed for that SHA. -/
def renderRangeCommit (p : Str × Option Str) : Str :=
  match p.2 with
  | some subject => str "- " ++ shortSHA p.1 ++ str " " ++ subject ++ str "\n"
  | none => str "- " ++ shortSHA p.1 ++ str "\n"

/-- Everything `buildRangePrompt` (prompt.go) assembles before the diff. -/
def rangePrefix (sysPrompt : Str) (cfg : Option RepoConfig) (fs : FS) (repoPath : FPath)
    (contextCount : Nat) (ctxFetch : Option (List ReviewContextM))
    (attempts : List AttemptReview) (commits : List (Str × Option Str)) : Str :=
  sysPrompt ++ str "\n"
    ++ configSections cfg fs repoPath
    ++ previousReviewsSection contextCount ctxFetch
    ++ writePreviousAttempts attempts
    ++ str "## Commit Range\n\n"
    ++ str "Reviewing " ++ str (toString commits.length) ++ str " commits:\n\n"
    ++ (commits.map renderRangeCommit).flatten
    ++ str "\n"

/-- `buildRangePrompt` (prompt.go): when the combined diff section would
exceed `MaxPromptSize` the diff is replaced by an out-of-band pointer
(`git diff <range>`). -/
def buildRangePrompt (sysPrompt : Str) (cfg : Option RepoConfig) (fs : FS) (repoPath : FPath)
    (contextCount : Nat) (ctxFetch : Option (List ReviewContextM))
    (attempts : List AttemptReview) (commits : List (Str × Option Str))
    (rangeRef diff : Str) : Str :=
  let sb := rangePrefix sysPrompt cfg fs repoPath contextCount ctxFetch attempts commits
  let ds := str "### Combined Diff\n\n" ++ diffBlock diff
  if maxPromptSize < sb.length + ds.length then
    sb ++ str "### Combined Diff\n\n"
      ++ str "(Diff too large to include - please review the commits directly)\n"
      ++ str "View with: git diff " ++ rangeRef ++ str "\n"
  else sb ++ ds

/-! ## Agent runners (internal/agent) -/

/-- The placeholder `CodexAgent.Review` substitutes for empty output
(codex.go). -/
def codexPlaceholder : Str := str "No review output generated"

/-- `CodexAgent.Review` (codex.go), as a function of the externally
observable process outcome: non-zero exit or an unreadable output file
fails; a successful run with an empty output file yields the placeholder;
otherwise the file content verbatim. -/
def codexReview (exitOk readOk : Bool) (output stderrData : Str) : Except Str Str :=
  if !exitOk then Except.error (str "codex failed: exit status\nstderr: " ++ stderrData)
  else if !readOk then Except.error (str "read output: error")
  else if output.length = 0 then Except.ok codexPlaceholder
  else Except.ok output

/-- `ClaudeAgent.Review` (claude.go): non-zero exit fails; otherwise the
captured standard output verbatim, with no empty-output handling. -/
def claudeReview (exitOk : Bool) (stdoutData stderrData : Str) : Except Str Str :=
  if !exitOk then Except.error (str "claude failed: exit status\nstderr: " ++ stderrData)
  else Except.ok stdoutData

/-- Finish time of the job with a given id, if present and set. -/
def finishedOf (s : Store) (i : Nat) : Option Nat :=
  (s.jobs.find? (fun j => j.id = i)).bind (·.finishedAt)

/-- A trivial filesystem (no files, no symlinks beyond identity), used to
instantiate theorems at concrete inputs. -/
def constFS : FS :=
  { resolve := fun p => some p
    lstat := fun _ => none
    stat := fun _ => none
    size := fun _ => 0
    content := fun _ => []
    glob := fun _ => [] }

/-- A filesystem holding one 64000-byte regular file of letters at every
path, used to exercise the context-file budget at the configured quarter
budget. -/
def bigFileFS : FS :=
  { resolve := fun p => some p
    lstat := fun _ => some FileKind.regular
    stat := fun _ => some FileKind.regular
    size := fun _ => 64000
    content := fun _ => List.replicate 64000 'a'
    glob := fun _ => [] }

/-- A one-job store with the job queued, used to instantiate the claim
theorems at a concrete input. -/
def oneQueuedStore : Store :=
  { jobs := [{ id := 0, repoId := 1, commitId := some 1, gitRef := "abc123", agent := "codex",
               status := JobStatus.queued, enqueuedAt := 3, startedAt := none,
               finishedAt := none, workerId := none, error := none }]
    reviews := []
    nextId := 1 }

end Roborev

namespace Roborev

/-! ## Fence safety (prompt.go, `fenceForContent`) -/

theorem fenceScanStep_backtick (p : Nat × Nat) : fenceScanStep p '`' = (max p.1 (p.2 + 1), p.2 + 1) := by
  unfold fenceScanStep
  rw [if_pos rfl]
  refine Prod.ext ?_ rfl
  dsimp only
  split <;> omega

theorem fenceScanStep_other {r : Char} (h : ¬r = '`') (p : Nat × Nat) :
    fenceScanStep p r = (p.1, 0) := by
  simp [fenceScanStep, h]

theorem foldl_fence_fst_max (l : Str) :
    ∀ m c, (l.foldl fenceScanStep (m, c)).1 = max m (l.foldl fenceScanStep (0, c)).1 := by
  induction l with
  | nil => intro m c; simp
  | cons r t ih =>
    intro m c
    by_cases hr : r = '`'
    · subst hr
      simp only [List.foldl_cons, fenceScanStep_backtick]
      rw [ih (max m (c + 1)) (c + 1), ih (max 0 (c + 1)) (c + 1)]
      omega
    · simp only [List.foldl_cons, fenceScanStep_other hr]
      exact ih m 0

theorem foldl_fence_fst_ge (l : Str) : ∀ m c, m ≤ (l.foldl fenceScanStep (m, c)).1 := by
  induction l with
  | nil => intro m c; simp
  | cons r t ih =>
    intro m c
    by_cases hr : r = '`'
    · subst hr
      simp only [List.foldl_cons, fenceScanStep_backtick]
      exact le_trans (le_max_left _ _) (ih _ _)
    · simp only [List.foldl_cons, fenceScanStep_other hr]
      exact ih m 0

theorem foldl_fence_replicate (k : Nat) :
    ∀ m c, List.foldl fenceScanStep (m, c) (List.replicate k '`')
      = (if k = 0 then m else max m (c + k), c + k) := by
  induction k with
  | zero => intro m c; simp
  | succ k ih =>
    intro m c
    simp only [List.replicate_succ, List.foldl_cons, fenceScanStep_backtick]
    rw [ih (max m (c + 1)) (c + 1)]
    by_cases hk : k = 0
    · simp [hk]
    · simp [hk]
      omega

theorem le_longestRun_of_infix {k : Nat} {content : Str}
    (h : List.replicate k '`' <:+: content) : k ≤ longestRun content := by
  obtain ⟨s, t, rfl⟩ := h
  unfold longestRun
  rw [List.foldl_append, List.foldl_append, foldl_fence_replicate]
  rcases Nat.eq_zero_or_pos k with hk | hk
  · omega
  · rw [if_neg (by omega : ¬k = 0)]
    refine le_trans ?_ (foldl_fence_fst_ge t _ _)
    omega

/-- C7: for content whose longest backtick run is F, the emitted fence has
length max(F+1, 3) > F, so no backtick run in the content is as long as
the fence; when that length would exceed `maxFenceLength` (10) the file is
skipped (`fenceForContent` returns none). -/
theorem fence_safety (content : Str) :
    (∀ fence, fenceForContent content = some fence →
        fence.length = max (longestRun content + 1) 3
        ∧ longestRun content < fence.length
        ∧ ∀ k, List.replicate k '`' <:+: content → k < fence.length)
    ∧ (fenceForContent content = none ↔ maxFenceLength < max (longestRun content + 1) 3) := by
  have heq : (content.foldl fenceScanStep (2, 0)).1 = max 2 (longestRun content) :=
    foldl_fence_fst_max content 2 0
  have hmax : (content.foldl fenceScanStep (2, 0)).1 + 1 = max (longestRun content + 1) 3 := by
    rw [heq]; omega
  constructor
  · intro fence hf
    unfold fenceForContent at hf
    by_cases hbig : maxFenceLength < (content.foldl fenceScanStep (2, 0)).1 + 1
    · simp [hbig] at hf
    · simp only [hbig, if_false] at hf
      have hlen : fence.length = (content.foldl fenceScanStep (2, 0)).1 + 1 := by
        rw [← Option.some_inj.mp hf, List.length_replicate]
      refine ⟨by rw [hlen, hmax], by rw [hlen, heq]; omega, ?_⟩
      intro k hk
      have := le_longestRun_of_infix hk
      rw [hlen, heq]
      omega
  · unfold fenceForContent
    rw [← hmax]
    by_cases hbig : maxFenceLength < (content.foldl fenceScanStep (2, 0)).1 + 1 <;>
      simp [hbig]

theorem fence_safety_witness :
    longestRun (str "a```b") < (str "````").length
    ∧ (str "````").length = max (longestRun (str "a```b") + 1) 3 := by
  have h := (fence_safety (str "a```b")).1 (str "````") (by decide)
  exact ⟨h.2.1, h.1⟩

/-! ## Agent empty-output handling (codex.go, claude.go) -/

/-- C9 counterexample: the claude agent returns its captured standard
output verbatim, so a successful run with empty output yields the empty
string, not a placeholder. -/
theorem claude_empty_counterexample :
    claudeReview true [] [] = Except.ok [] ∧ ([] : Str).length = 0 :=
  ⟨rfl, rfl⟩

/-- C9 amended: the codex agent substitutes a distinct non-empty
placeholder for empty output and is otherwise verbatim; the claude agent
returns captured standard output verbatim (and can therefore return the
empty string). -/
theorem agent_empty_output (stderrData stdoutData out : Str) (hout : out ≠ []) :
    codexReview true true [] stderrData = Except.ok codexPlaceholder
    ∧ codexPlaceholder ≠ []
    ∧ codexReview true true out stderrData = Except.ok out
    ∧ claudeReview true stdoutData stderrData = Except.ok stdoutData := by
  refine ⟨rfl, by decide, ?_, rfl⟩
  have hlen : ¬out.length = 0 := by
    simpa [List.length_eq_zero] using hout
  simp [codexReview, hlen]

theorem agent_empty_output_witness :
    codexReview true true (str "ok") [] = Except.ok (str "ok") :=
  (agent_empty_output [] [] (str "ok") (by decide)).2.2.1

/-! ## Claim selection lemmas (jobs.go, `ClaimJob`) -/

theorem selectOldest_eq_none_iff (l : List Job) : selectOldest l = none ↔ l = [] := by
  cases l with
  | nil => simp [selectOldest]
  | cons j rest =>
    simp only [selectOldest]
    cases h : selectOldest rest with
    | none => simp
    | some b => by_cases hlt : b.enqueuedAt < j.enqueuedAt <;> simp [hlt]

theorem selectOldest_mem {l : List Job} {j : Job} (h : selectOldest l = some j) : j ∈ l := by
  induction l with
  | nil => simp [selectOldest] at h
  | cons a t ih =>
    simp only [selectOldest] at h
    cases ht : selectOldest t with
    | none =>
      rw [ht] at h
      simp only [Option.some_inj] at h
      simp [← h]
    | some b =>
      rw [ht] at h
      dsimp only at h
      by_cases hlt : b.enqueuedAt < a.enqueuedAt
      · rw [if_pos hlt] at h
        simp only [Option.some_inj] at h
        exact List.mem_cons_of_mem a (ih (h ▸ ht))
      · rw [if_neg hlt] at h
        simp only [Option.some_inj] at h
        simp [← h]

theorem selectOldest_minimal {l : List Job} {j : Job} (h : selectOldest l = some j) :
    ∀ k ∈ l, j.enqueuedAt ≤ k.enqueuedAt := by
  induction l generalizing j with
  | nil => simp [selectOldest] at h
  | cons a t ih =>
    simp only [selectOldest] at h
    cases ht : selectOldest t with
    | none =>
      have : t = [] := (selectOldest_eq_none_iff t).mp ht
      subst this
      rw [ht] at h
      simp only [Option.some_inj] at h
      subst h
      simp
    | some b =>
      rw [ht] at h
      dsimp only at h
      by_cases hlt : b.enqueuedAt < a.enqueuedAt
      · rw [if_pos hlt] at h
        simp only [Option.some_inj] at h
        subst h
        intro k hk
        rcases List.mem_cons.mp hk with rfl | hk
        · omega
        · exact ih ht k hk
      · rw [if_neg hlt] at h
        simp only [Option.some_inj] at h
        subst h
        intro k hk
        rcases List.mem_cons.mp hk with rfl | hk
        · omega
        · exact le_trans (by omega) (ih ht k hk)

theorem mem_queuedJobs {s : Store} {j : Job} :
    j ∈ queuedJobs s ↔ j ∈ s.jobs ∧ j.status = JobStatus.queued := by
  simp [queuedJobs, List.mem_filter]

/-- Replacing, by id, an element that the filter rejects removes exactly
the elements with that id from the filtered list. -/
theorem filter_map_update (l : List Job) (p : Job → Bool) (i : Nat) (j2 : Job)
    (hp2 : p j2 = false) :
    (l.map (fun x => if x.id = i then j2 else x)).filter p
      = (l.filter p).filter (fun x => !(decide (x.id = i))) := by
  induction l with
  | nil => simp
  | cons a t ih =>
    by_cases ha : a.id = i
    · by_cases hpa : p a = true
      · simp [ha, hp2, hpa, ih]
      · simp only [Bool.not_eq_true] at hpa
        simp [ha, hp2, hpa, ih]
    · by_cases hpa : p a = true
      · simp [ha, hpa, ih]
      · simp only [Bool.not_eq_true] at hpa
        simp [ha, hpa, ih]

theorem map_id_filter_comm (l : List Job) (q : Nat → Bool) :
    (l.filter (fun x => q x.id)).map (·.id) = (l.map (·.id)).filter q := by
  induction l with
  | nil => simp
  | cons a t ih =>
    by_cases hq : q a.id = true
    · simp [hq, ih]
    · simp only [Bool.not_eq_true] at hq
      simp [hq, ih]

theorem find?_map_id_preserving (l : List Job) (f : Job → Job)
    (hf : ∀ x, (f x).id = x.id) (i : Nat) :
    (l.map f).find? (fun j => j.id = i) = (l.find? (fun j => j.id = i)).map f := by
  induction l with
  | nil => simp
  | cons a t ih =>
    by_cases ha : a.id = i
    · have : (f a).id = i := by rw [hf]; exact ha
      simp [List.find?_cons, this, ha]
    · have : ¬(f a).id = i := by rw [hf]; exact ha
      simp [List.find?_cons, this, ha, ih]

theorem map_upd_ids (l : List Job) (f : Job → Job) (hf : ∀ x, (f x).id = x.id) :
    (l.map f).map (·.id) = l.map (·.id) := by
  rw [List.map_map]
  exact List.map_congr_left (fun x _ => hf x)

theorem claimJob_of_empty (s : Store) (w : String) (now : Nat)
    (h : queuedJobs s = []) : claimJob w now s = (none, s) := by
  have : selectOldest (queuedJobs s) = none := by rw [h]; rfl
  simp [claimJob, this]

theorem claimJob_of_select {s : Store} {j : Job} (w : String) (now : Nat)
    (hsel : selectOldest (queuedJobs s) = some j) :
    claimJob w now s =
      (some { j with status := JobStatus.running, workerId := some w, startedAt := some now },
       { s with jobs := s.jobs.map fun x =>
           if x.id = j.id then
             { j with status := JobStatus.running, workerId := some w, startedAt := some now }
           else x }) := by
  simp [claimJob, hsel]

theorem queuedJobs_after_claim {s : Store} {j : Job} (w : String) (now : Nat)
    (hsel : selectOldest (queuedJobs s) = some j) :
    queuedJobs (claimJob w now s).2
      = (queuedJobs s).filter (fun x => !(decide (x.id = j.id))) := by
  rw [claimJob_of_select w now hsel]
  show (s.jobs.map _).filter _ = _
  rw [filter_map_update s.jobs _ j.id _ (by simp)]
  rfl

theorem queuedIds_after_claim {s : Store} {j : Job} (w : String) (now : Nat)
    (hsel : selectOldest (queuedJobs s) = some j) :
    queuedIds (claimJob w now s).2
      = (queuedIds s).filter (fun n => !(decide (n = j.id))) := by
  unfold queuedIds
  rw [queuedJobs_after_claim w now hsel]
  exact map_id_filter_comm (queuedJobs s) (fun n => !(decide (n = j.id)))

theorem statusOf_after_claim_other {s : Store} {j : Job} (w : String) (now : Nat)
    (hsel : selectOldest (queuedJobs s) = some j) (i : Nat) (hi : i ≠ j.id) :
    statusOf (claimJob w now s).2 i = statusOf s i := by
  rw [claimJob_of_select w now hsel]
  unfold statusOf
  rw [show ({ s with jobs := s.jobs.map fun x =>
      if x.id = j.id then
        { j with status := JobStatus.running, workerId := some w, startedAt := some now }
      else x } : Store).jobs = s.jobs.map fun x =>
      if x.id = j.id then
        { j with status := JobStatus.running, workerId := some w, startedAt := some now }
      else x from rfl]
  rw [find?_map_id_preserving s.jobs _ (fun x => by by_cases hx : x.id = j.id <;> simp [hx]) i]
  cases hfind : s.jobs.find? (fun x => decide (x.id = i)) with
  | none => simp
  | some x =>
    have hx : x.id = i := by
      have := List.find?_some hfind
      simpa using this
    have hxj : ¬x.id = j.id := by rw [hx]; exact hi
    simp [hxj]

theorem statusOf_after_claim_self {s : Store} {j : Job} (w : String) (now : Nat)
    (hsel : selectOldest (queuedJobs s) = some j) :
    statusOf (claimJob w now s).2 j.id = some JobStatus.running := by
  rw [claimJob_of_select w now hsel]
  unfold statusOf
  rw [show ({ s with jobs := s.jobs.map fun x =>
      if x.id = j.id then
        { j with status := JobStatus.running, workerId := some w, startedAt := some now }
      else x } : Store).jobs = s.jobs.map fun x =>
      if x.id = j.id then
        { j with status := JobStatus.running, workerId := some w, startedAt := some now }
      else x from rfl]
  rw [find?_map_id_preserving s.jobs _ (fun x => by by_cases hx : x.id = j.id <;> simp [hx]) j.id]
  have hjmem : j ∈ s.jobs := (mem_queuedJobs.mp (selectOldest_mem hsel)).1
  have hsome : (s.jobs.find? (fun x => decide (x.id = j.id))).isSome := by
    rw [List.find?_isSome]
    exact ⟨j, hjmem, by simp⟩
  cases hfind : s.jobs.find? (fun x => decide (x.id = j.id)) with
  | none => rw [hfind] at hsome; simp at hsome
  | some x =>
    have hx : x.id = j.id := by
      have := List.find?_some hfind
      simpa using this
    simp [hx]

/-- C2: a single `ClaimJob` call returns none and leaves the store
unchanged when no job is queued; otherwise it returns the queued job with
minimal enqueue time, transitioned to running with the worker id and start
time set, leaving every other job's status unchanged; and two successive
successful claims come back in ascending enqueue-time order. -/
theorem claimJob_fifo (s : Store) (w w2 : String) (now now2 : Nat) :
    (queuedJobs s = [] → claimJob w now s = (none, s))
    ∧ (∀ j, (claimJob w now s).1 = some j →
        j.status = JobStatus.running ∧ j.workerId = some w ∧ j.startedAt = some now
        ∧ (∃ j0 ∈ s.jobs, j0.status = JobStatus.queued ∧ j0.id = j.id
            ∧ j0.enqueuedAt = j.enqueuedAt)
        ∧ (∀ k ∈ s.jobs, k.status = JobStatus.queued → j.enqueuedAt ≤ k.enqueuedAt)
        ∧ statusOf (claimJob w now s).2 j.id = some JobStatus.running
        ∧ ∀ i, i ≠ j.id → statusOf (claimJob w now s).2 i = statusOf s i)
    ∧ (∀ j1 j2, (claimJob w now s).1 = some j1 →
        (claimJob w2 now2 (claimJob w now s).2).1 = some j2 →
        j1.enqueuedAt ≤ j2.enqueuedAt) := by
  refine ⟨claimJob_of_empty s w now, ?_, ?_⟩
  · intro j hj
    cases hsel : selectOldest (queuedJobs s) with
    | none =>
      rw [claimJob_of_empty s w now ((selectOldest_eq_none_iff _).mp hsel)] at hj
      simp at hj
    | some j0 =>
      rw [claimJob_of_select w now hsel] at hj
      simp only [Option.some_inj] at hj
      subst hj
      have hj0q := mem_queuedJobs.mp (selectOldest_mem hsel)
      refine ⟨rfl, rfl, rfl, ⟨j0, hj0q.1, hj0q.2, rfl, rfl⟩, ?_, ?_, ?_⟩
      · intro k hk hkq
        exact selectOldest_minimal hsel k (mem_queuedJobs.mpr ⟨hk, hkq⟩)
      · exact @statusOf_after_claim_self s j0 w now hsel
      · intro i hi
        exact @statusOf_after_claim_other s j0 w now hsel i hi
  · intro j1 j2 h1 h2
    cases hsel : selectOldest (queuedJobs s) with
    | none =>
      rw [claimJob_of_empty s w now ((selectOldest_eq_none_iff _).mp hsel)] at h1
      simp at h1
    | some j0 =>
      rw [claimJob_of_select w now hsel] at h1
      simp only [Option.some_inj] at h1
      cases hsel2 : selectOldest (queuedJobs (claimJob w now s).2) with
      | none =>
        rw [claimJob_of_empty _ w2 now2 ((selectOldest_eq_none_iff _).mp hsel2)] at h2
        simp at h2
      | some j0b =>
        rw [claimJob_of_select w2 now2 hsel2] at h2
        simp only [Option.some_inj] at h2
        have hmem2 : j0b ∈ queuedJobs (claimJob w now s).2 := selectOldest_mem hsel2
        rw [queuedJobs_after_claim w now hsel] at hmem2
        have hmem2q : j0b ∈ queuedJobs s := List.mem_of_mem_filter hmem2
        have := selectOldest_minimal hsel j0b hmem2q
        rw [← h1, ← h2]
        exact this

theorem claimJob_fifo_witness :
    claimJob "w1" 4 emptyStore = (none, emptyStore) :=
  (claimJob_fifo emptyStore "w1" "w2" 4 5).1 (by decide)

/-! ## Exclusive claiming under concurrent callers (jobs.go, `ClaimJob`) -/

theorem successIds_length (rs : List (Option Job)) :
    (successIds rs).length = rs.countP (fun r => r.isSome) := by
  induction rs with
  | nil => simp [successIds]
  | cons r t ih =>
    cases r with
    | none => simp [successIds, List.filterMap_cons, List.countP_cons] at ih ⊢; omega
    | some j => simp [successIds, List.filterMap_cons, List.countP_cons] at ih ⊢; omega

theorem countP_isNone (rs : List (Option Job)) :
    rs.countP (fun r => r.isNone) = rs.length - rs.countP (fun r => r.isSome) := by
  induction rs with
  | nil => simp
  | cons r t ih =>
    have hle : t.countP (fun r : Option Job => r.isSome) ≤ t.length :=
      List.countP_le_length _
    cases r with
    | none => simp [List.countP_cons] at ih ⊢; omega
    | some j => simp [List.countP_cons] at ih ⊢; omega

theorem successIds_cons_none (rs : List (Option Job)) :
    successIds (none :: rs) = successIds rs := rfl

theorem successIds_cons_some (j : Job) (rs : List (Option Job)) :
    successIds (some j :: rs) = j.id :: successIds rs := rfl

theorem wf_after_claim {s : Store} {j : Job} (w : String) (now : Nat)
    (hsel : selectOldest (queuedJobs s) = some j) (wf : StoreWF s) :
    StoreWF (claimJob w now s).2 := by
  rw [claimJob_of_select w now hsel]
  have hjmem : j ∈ s.jobs := (mem_queuedJobs.mp (selectOldest_mem hsel)).1
  constructor
  · dsimp only
    rw [map_upd_ids _ _ (fun x => by by_cases hx : x.id = j.id <;> simp [hx])]
    exact wf.nodup
  · intro x hx
    obtain ⟨y, hy, rfl⟩ := List.mem_map.mp hx
    by_cases hyy : y.id = j.id
    · rw [if_pos hyy]
      exact wf.idLt j hjmem
    · rw [if_neg hyy]
      exact wf.idLt y hy

theorem queuedIds_nodup {s : Store} (wf : StoreWF s) : (queuedIds s).Nodup := by
  unfold queuedIds queuedJobs
  exact List.Nodup.sublist ((List.filter_sublist s.jobs).map (·.id)) wf.nodup

theorem queuedIds_after_claim_erase {s : Store} {j : Job} (w : String) (now : Nat)
    (hsel : selectOldest (queuedJobs s) = some j) (wf : StoreWF s) :
    queuedIds (claimJob w now s).2 = (queuedIds s).erase j.id := by
  rw [queuedIds_after_claim w now hsel]
  rw [(queuedIds_nodup wf).erase_eq_filter j.id]
  apply List.filter_congr
  intro x _
  by_cases hx : x = j.id <;> simp [hx]

theorem claimAll_cons_fst (w : String) (rest : List String) (now : Nat) (s : Store) :
    (claimAll (w :: rest) now s).1
      = (claimJob w now s).1 :: (claimAll rest now (claimJob w now s).2).1 := rfl

theorem claimAll_cons_snd (w : String) (rest : List String) (now : Nat) (s : Store) :
    (claimAll (w :: rest) now s).2 = (claimAll rest now (claimJob w now s).2).2 := rfl

theorem claimAll_spec (now : Nat) (ws : List String) :
    ∀ s : Store, StoreWF s →
      (claimAll ws now s).1.length = ws.length
      ∧ StoreWF (claimAll ws now s).2
      ∧ (successIds (claimAll ws now s).1).Subperm (queuedIds s)
      ∧ (successIds (claimAll ws now s).1).length = min ws.length (queuedIds s).length := by
  induction ws with
  | nil =>
    intro s wf
    exact ⟨rfl, wf, List.nil_subperm, by simp [claimAll, successIds]⟩
  | cons w rest ih =>
    intro s wf
    rw [claimAll_cons_fst, claimAll_cons_snd]
    cases hsel : selectOldest (queuedJobs s) with
    | none =>
      have hq : queuedJobs s = [] := (selectOldest_eq_none_iff _).mp hsel
      have hclaim : claimJob w now s = (none, s) := claimJob_of_empty s w now hq
      have h1eq : (claimJob w now s).1 = none := by rw [hclaim]
      have h2eq : (claimJob w now s).2 = s := by rw [hclaim]
      have hqi : queuedIds s = [] := by unfold queuedIds; rw [hq]; rfl
      rw [h1eq, h2eq]
      obtain ⟨ih1, ih2, ih3, ih4⟩ := ih s wf
      rw [successIds_cons_none]
      refine ⟨by simpa using ih1, ih2, ih3, ?_⟩
      rw [hqi] at ih4 ⊢
      simp only [List.length_nil, Nat.min_zero] at ih4 ⊢
      exact ih4
    | some j =>
      have hclaim := claimJob_of_select w now hsel
      have h1eq : (claimJob w now s).1
          = some { j with status := JobStatus.running, workerId := some w, startedAt := some now } := by
        rw [hclaim]
      have wf1 : StoreWF (claimJob w now s).2 := wf_after_claim w now hsel wf
      have hqi : queuedIds (claimJob w now s).2 = (queuedIds s).erase j.id :=
        queuedIds_after_claim_erase w now hsel wf
      have hjid : j.id ∈ queuedIds s :=
        List.mem_map_of_mem (·.id) (selectOldest_mem hsel)
      have hpos : 0 < (queuedIds s).length :=
        List.length_pos.mpr (List.ne_nil_of_mem hjid)
      obtain ⟨ih1, ih2, ih3, ih4⟩ := ih (claimJob w now s).2 wf1
      rw [hqi] at ih3 ih4
      have heraselen : ((queuedIds s).erase j.id).length = (queuedIds s).length - 1 :=
        List.length_erase_of_mem hjid
      rw [h1eq, successIds_cons_some]
      refine ⟨by simpa using ih1, ih2, ?_, ?_⟩
      · show (j.id :: successIds (claimAll rest now (claimJob w now s).2).1).Subperm (queuedIds s)
        refine List.Subperm.trans ?_ (List.Perm.subperm (List.perm_cons_erase hjid).symm)
        exact (List.subperm_cons j.id).mpr ih3
      · show (j.id :: successIds (claimAll rest now (claimJob w now s).2).1).length = _
        simp only [List.length_cons]
        rw [ih4, heraselen]
        omega

/-- C1: for a store with M queued jobs and K > M callers of `ClaimJob`
(whose atomic claim statements the database serializes in some order),
exactly M calls succeed, each queued job is returned to exactly one
caller, no other job is returned to anyone, and the remaining K − M calls
return none. -/
theorem claim_exclusive (s : Store) (ws : List String) (now : Nat)
    (wf : StoreWF s) (hK : queuedCount s < ws.length) :
    (claimAll ws now s).1.countP (fun r => r.isSome) = queuedCount s
    ∧ (claimAll ws now s).1.countP (fun r => r.isNone) = ws.length - queuedCount s
    ∧ (∀ i ∈ queuedIds s, (successIds (claimAll ws now s).1).count i = 1)
    ∧ (∀ i, i ∉ queuedIds s → (successIds (claimAll ws now s).1).count i = 0) := by
  obtain ⟨h1, _, h3, h4⟩ := claimAll_spec now ws s wf
  have hqc : queuedCount s = (queuedIds s).length := by
    unfold queuedCount queuedIds
    rw [List.length_map]
  have hlenS : (successIds (claimAll ws now s).1).length = (queuedIds s).length := by
    rw [h4]
    omega
  have hperm : (successIds (claimAll ws now s).1).Perm (queuedIds s) :=
    h3.perm_of_length_le (by omega)
  have hsome : (claimAll ws now s).1.countP (fun r => r.isSome) = queuedCount s := by
    rw [← successIds_length, hlenS, hqc]
  refine ⟨hsome, ?_, ?_, ?_⟩
  · rw [countP_isNone, hsome, h1]
  · intro i hi
    rw [hperm.count_eq i]
    exact List.count_eq_one_of_mem (queuedIds_nodup wf) hi
  · intro i hi
    rw [hperm.count_eq i]
    exact List.count_eq_zero.mpr hi

theorem claim_exclusive_witness :
    (claimAll ["w1", "w2"] 7 oneQueuedStore).1.countP (fun r => r.isSome)
      = queuedCount oneQueuedStore :=
  (claim_exclusive oneQueuedStore ["w1", "w2"] 7 ⟨by decide, by decide⟩ (by decide)).1

/-! ## Forward-only status transitions (jobs.go, db.go) -/

theorem forwardOK_refl (b : Bool) (x : Option JobStatus) : forwardOK b x x = true := by
  simp [forwardOK]

theorem statusOf_eq_of_mem {s : Store} {j : Job} (wf : StoreWF s) (hj : j ∈ s.jobs) :
    statusOf s j.id = some j.status := by
  unfold statusOf
  have hsome : (s.jobs.find? (fun x => decide (x.id = j.id))).isSome := by
    rw [List.find?_isSome]
    exact ⟨j, hj, by simp⟩
  cases hfind : s.jobs.find? (fun x => decide (x.id = j.id)) with
  | none => rw [hfind] at hsome; simp at hsome
  | some x =>
    have hxid : x.id = j.id := by simpa using List.find?_some hfind
    have hxmem := List.mem_of_find?_eq_some hfind
    have : x = j := List.inj_on_of_nodup_map wf.nodup hxmem hj hxid
    simp [this]

theorem statusOf_map_upd (l : List Job) (rv : List Review) (n : Nat) (f : Job → Job)
    (hf : ∀ x, (f x).id = x.id) (i : Nat) :
    statusOf ⟨l.map f, rv, n⟩ i
      = (l.find? (fun x => decide (x.id = i))).map (fun x => (f x).status) := by
  unfold statusOf
  dsimp only
  rw [find?_map_id_preserving l f hf i]
  cases l.find? (fun x => decide (x.id = i)) <;> simp

theorem statusOf_mk (l : List Job) (rv : List Review) (n : Nat) (i : Nat) :
    statusOf ⟨l, rv, n⟩ i = (l.find? (fun x => decide (x.id = i))).map (·.status) := rfl

theorem wf_applyOp (op : Op) (s : Store) (wf : StoreWF s) : StoreWF (applyOp op s) := by
  have hmap : ∀ (f : Job → Job), (∀ x, (f x).id = x.id) →
      ∀ rv n, n = s.nextId → StoreWF ⟨s.jobs.map f, rv, n⟩ := by
    intro f hf rv n hn
    subst hn
    constructor
    · dsimp only
      rw [map_upd_ids _ _ hf]
      exact wf.nodup
    · intro x hx
      obtain ⟨y, hy, rfl⟩ := List.mem_map.mp hx
      rw [hf]
      exact wf.idLt y hy
  cases op with
  | enqueue repoId commitId gitRef agent t =>
    show StoreWF (enqueueJob repoId commitId gitRef agent t s)
    unfold enqueueJob
    constructor
    · dsimp only
      rw [List.map_append, List.nodup_append]
      refine ⟨wf.nodup, List.nodup_singleton _, ?_⟩
      intro a ha hb
      obtain ⟨y, hy, rfl⟩ := List.mem_map.mp ha
      have := wf.idLt y hy
      simp at hb
      omega
    · intro x hx
      show x.id < s.nextId + 1
      rcases List.mem_append.mp hx with hx | hx
      · have := wf.idLt x hx
        omega
      · simp only [List.mem_cons, List.not_mem_nil, or_false] at hx
        subst hx
        show s.nextId < s.nextId + 1
        omega
  | claim w now =>
    cases hsel : selectOldest (queuedJobs s) with
    | none =>
      show StoreWF (claimJob w now s).2
      rw [claimJob_of_empty s w now ((selectOldest_eq_none_iff _).mp hsel)]
      exact wf
    | some j => exact wf_after_claim w now hsel wf
  | complete jobId agent prompt output now fU fI =>
    show StoreWF (completeJob jobId agent prompt output now fU fI s).2
    unfold completeJob
    cases fU with
    | true => exact wf
    | false =>
      cases hins : (fI || s.reviews.any (fun r => decide (r.jobId = jobId))) with
      | true => simpa [hins] using wf
      | false =>
        simp only [hins, Bool.false_eq_true, if_false, if_neg]
        exact hmap _ (fun x => by by_cases hx : x.id = jobId <;> simp [hx]) _ _ rfl
  | fail jobId msg now =>
    exact hmap _ (fun x => by by_cases hx : x.id = jobId <;> simp [hx]) _ _ rfl
  | reset =>
    exact hmap _ (fun x => by by_cases hx : x.status = JobStatus.running <;> simp [hx]) _ _ rfl

theorem forward_step (op : Op) (s : Store) (wf : StoreWF s) (hd : DisciplinedOp op s) :
    ∀ i, forwardOK (isResetOp op) (statusOf s i) (statusOf (applyOp op s) i) = true := by
  intro i
  have hpre : statusOf s i = (s.jobs.find? (fun x => decide (x.id = i))).map (·.status) := rfl
  cases op with
  | enqueue repoId commitId gitRef agent t =>
    have hpost : statusOf (applyOp (Op.enqueue repoId commitId gitRef agent t) s) i
        = ((s.jobs.find? (fun x => decide (x.id = i))).or
            (if s.nextId = i then
              some { id := s.nextId, repoId := repoId, commitId := commitId, gitRef := gitRef,
                     agent := agent, status := JobStatus.queued, enqueuedAt := t,
                     startedAt := none, finishedAt := none, workerId := none, error := none }
             else none)).map (·.status) := by
      show statusOf ⟨s.jobs ++ [_], s.reviews, s.nextId + 1⟩ i = _
      rw [statusOf_mk, List.find?_append]
      congr 1
      simp [List.find?_cons]
      split <;> simp_all
    rw [hpost, hpre]
    cases hfind : s.jobs.find? (fun x => decide (x.id = i)) with
    | some x => simp [forwardOK]
    | none =>
      by_cases hi : s.nextId = i
      · simp only [hi, if_pos rfl, Option.or, Option.map]
        simp [forwardOK]
      · simp [hi, forwardOK]
  | claim w now =>
    cases hsel : selectOldest (queuedJobs s) with
    | none =>
      have heq : applyOp (Op.claim w now) s = s := by
        show (claimJob w now s).2 = s
        rw [claimJob_of_empty s w now ((selectOldest_eq_none_iff _).mp hsel)]
      rw [heq]
      exact forwardOK_refl _ _
    | some j =>
      by_cases hi : i = j.id
      · subst hi
        have hjq := mem_queuedJobs.mp (selectOldest_mem hsel)
        have hqpre : statusOf s j.id = some JobStatus.queued := by
          rw [statusOf_eq_of_mem wf hjq.1, hjq.2]
        have hpost : statusOf (applyOp (Op.claim w now) s) j.id = some JobStatus.running :=
          statusOf_after_claim_self w now hsel
        rw [hqpre, hpost]
        simp [forwardOK]
      · have : statusOf (applyOp (Op.claim w now) s) i = statusOf s i :=
          statusOf_after_claim_other w now hsel i hi
        rw [this]
        exact forwardOK_refl _ _
  | complete jobId agent prompt output now fU fI =>
    have happ : applyOp (Op.complete jobId agent prompt output now fU fI) s
        = (completeJob jobId agent prompt output now fU fI s).2 := rfl
    rw [happ]
    unfold completeJob
    cases fU with
    | true => exact forwardOK_refl _ _
    | false =>
      cases hins : (fI || s.reviews.any (fun r => decide (r.jobId = jobId))) with
      | true =>
        simp only [hins, Bool.false_eq_true, if_false, if_pos]
        exact forwardOK_refl _ _
      | false =>
        simp only [hins, Bool.false_eq_true, if_false, if_neg]
        have hrun : statusOf s jobId = some JobStatus.running := hd
        rw [statusOf_map_upd _ _ _ _
          (fun x => by by_cases hx : x.id = jobId <;> simp [hx]) i, hpre]
        cases hfind : s.jobs.find? (fun x => decide (x.id = i)) with
        | none => simp [forwardOK]
        | some x =>
          have hxid : x.id = i := by simpa using List.find?_some hfind
          by_cases hij : i = jobId
          · subst hij
            have hxrun : x.status = JobStatus.running := by
              rw [hpre, hfind] at hrun
              simpa using hrun
            simp only [Option.map_some']
            rw [if_pos hxid]
            simp [forwardOK, hxrun]
          · have : ¬x.id = jobId := by rw [hxid]; exact hij
            simp only [Option.map_some']
            rw [if_neg this]
            exact forwardOK_refl _ _
  | fail jobId msg now =>
    have hrun : statusOf s jobId = some JobStatus.running := hd
    show forwardOK _ _ (statusOf (failJob jobId msg now s) i) = true
    unfold failJob
    rw [statusOf_map_upd _ _ _ _
      (fun x => by by_cases hx : x.id = jobId <;> simp [hx]) i, hpre]
    cases hfind : s.jobs.find? (fun x => decide (x.id = i)) with
    | none => simp [forwardOK]
    | some x =>
      have hxid : x.id = i := by simpa using List.find?_some hfind
      by_cases hij : i = jobId
      · subst hij
        have hxrun : x.status = JobStatus.running := by
          rw [hpre, hfind] at hrun
          simpa using hrun
        simp only [Option.map_some']
        rw [if_pos hxid]
        simp [forwardOK, hxrun]
      · have : ¬x.id = jobId := by rw [hxid]; exact hij
        simp only [Option.map_some']
        rw [if_neg this]
        exact forwardOK_refl _ _
  | reset =>
    show forwardOK true _ (statusOf (resetStaleJobs s) i) = true
    unfold resetStaleJobs
    rw [statusOf_map_upd _ _ _ _
      (fun x => by by_cases hx : x.status = JobStatus.running <;> simp [hx]) i, hpre]
    cases hfind : s.jobs.find? (fun x => decide (x.id = i)) with
    | none => simp [forwardOK]
    | some x =>
      by_cases hx : x.status = JobStatus.running
      · simp only [Option.map_some']
        rw [if_pos hx, hx]
        simp [forwardOK]
      · simp only [Option.map_some']
        rw [if_neg hx]
        exact forwardOK_refl _ _

/-- C4 amended: under the worker calling discipline (`CompleteJob` and
`FailJob` are only invoked on a currently running job, as the worker loop
does), every operation moves every job's status only forward —
queued → running → done/failed — with running → queued possible only for
`ResetStaleJobs`.  Without the discipline the claim is false: the two
updates carry no status guard (see the counterexample). -/
theorem status_forward_disciplined (s : Store) (ops : List Op)
    (wf : StoreWF s) (hd : DisciplinedRun s ops) : ForwardRun s ops := by
  induction ops generalizing s with
  | nil => trivial
  | cons op rest ih =>
    obtain ⟨hd1, hd2⟩ := hd
    exact ⟨forward_step op s wf hd1, ih (applyOp op s) (wf_applyOp op s wf) hd2⟩

theorem status_forward_disciplined_witness :
    ForwardRun oneQueuedStore [Op.claim "w" 4, Op.complete 0 "codex" "p" "o" 5 false false] := by
  refine status_forward_disciplined oneQueuedStore _ ⟨by decide, by decide⟩ ⟨trivial, ?_, trivial⟩
  show statusOf (applyOp (Op.claim "w" 4) oneQueuedStore) 0 = some JobStatus.running
  decide

/-! ## Completion atomicity and review uniqueness (jobs.go, db.go) -/

theorem inv_empty : Inv emptyStore := by
  refine ⟨⟨by simp [emptyStore], by simp [emptyStore]⟩, by simp [emptyStore], ?_⟩
  intro i
  simp [reviewCount, emptyStore]

theorem inv_mapped (s : Store) (inv : Inv s) (f : Job → Job)
    (hf : ∀ x, (f x).id = x.id)
    (hdone : ∀ x ∈ s.jobs, (f x).status = JobStatus.done → x.status = JobStatus.done) :
    Inv ⟨s.jobs.map f, s.reviews, s.nextId⟩ := by
  refine ⟨⟨?_, ?_⟩, ?_, ?_⟩
  · dsimp only
    rw [map_upd_ids _ _ hf]
    exact inv.wf.nodup
  · intro x hx
    obtain ⟨y, hy, rfl⟩ := List.mem_map.mp hx
    show (f y).id < s.nextId
    rw [hf]
    exact inv.wf.idLt y hy
  · intro x hx hxdone
    obtain ⟨y, hy, rfl⟩ := List.mem_map.mp hx
    obtain ⟨r, hr, hrid⟩ := inv.doneReview y hy (hdone y hy hxdone)
    exact ⟨r, hr, by rw [hrid, hf]⟩
  · intro i
    exact inv.reviewOnce i

theorem inv_applyOp (op : Op) (s : Store) (inv : Inv s) : Inv (applyOp op s) := by
  cases op with
  | enqueue repoId commitId gitRef agent t =>
    refine ⟨wf_applyOp _ s inv.wf, ?_, ?_⟩
    · intro x hx hxdone
      show ∃ r ∈ s.reviews, r.jobId = x.id
      rcases List.mem_append.mp hx with hx | hx
      · exact inv.doneReview x hx hxdone
      · simp only [List.mem_cons, List.not_mem_nil, or_false] at hx
        subst hx
        simp at hxdone
    · intro i
      exact inv.reviewOnce i
  | claim w now =>
    cases hsel : selectOldest (queuedJobs s) with
    | none =>
      show Inv (claimJob w now s).2
      rw [claimJob_of_empty s w now ((selectOldest_eq_none_iff _).mp hsel)]
      exact inv
    | some j =>
      show Inv (claimJob w now s).2
      rw [claimJob_of_select w now hsel]
      refine inv_mapped s inv _ (fun x => by by_cases hx : x.id = j.id <;> simp [hx]) ?_
      intro x _ hxdone
      by_cases hx : x.id = j.id
      · rw [if_pos hx] at hxdone
        simp at hxdone
      · rwa [if_neg hx] at hxdone
  | complete jobId agent prompt output now fU fI =>
    show Inv (completeJob jobId agent prompt output now fU fI s).2
    unfold completeJob
    cases fU with
    | true => exact inv
    | false =>
      cases hins : (fI || s.reviews.any (fun r => decide (r.jobId = jobId))) with
      | true =>
        simp only [hins, Bool.false_eq_true, if_false, if_pos]
        exact inv
      | false =>
        simp only [hins, Bool.false_eq_true, if_false, if_neg]
        have hnone : ∀ r ∈ s.reviews, ¬r.jobId = jobId := by
          have := (Bool.or_eq_false_iff.mp hins).2
          rw [List.any_eq_false] at this
          intro r hr
          have := this r hr
          simpa using this
        refine ⟨⟨?_, ?_⟩, ?_, ?_⟩
        · dsimp only
          rw [map_upd_ids _ _ (fun x => by by_cases hx : x.id = jobId <;> simp [hx])]
          exact inv.wf.nodup
        · intro x hx
          obtain ⟨y, hy, rfl⟩ := List.mem_map.mp hx
          by_cases hyy : y.id = jobId
          · rw [if_pos hyy]
            show y.id < s.nextId
            exact inv.wf.idLt y hy
          · rw [if_neg hyy]
            exact inv.wf.idLt y hy
        · intro x hx hxdone
          dsimp only at hx
          obtain ⟨y, hy, rfl⟩ := List.mem_map.mp hx
          by_cases hyy : y.id = jobId
          · refine ⟨Review.mk jobId agent prompt output now,
              List.mem_append_right _ (List.mem_singleton.mpr rfl), ?_⟩
            rw [if_pos hyy]
            exact hyy.symm
          · rw [if_neg hyy] at hxdone ⊢
            obtain ⟨r, hr, hrid⟩ := inv.doneReview y hy hxdone
            exact ⟨r, List.mem_append_left _ hr, hrid⟩
        · intro i
          show ((s.reviews ++ [Review.mk jobId agent prompt output now]).filter
              (fun r => decide (r.jobId = i))).length ≤ 1
          rw [List.filter_append, List.length_append]
          by_cases hij : i = jobId
          · subst hij
            have hpre : s.reviews.filter (fun r => decide (r.jobId = i)) = [] := by
              rw [List.filter_eq_nil_iff]
              intro r hr
              simpa using hnone r hr
            rw [hpre]
            simp
          · have hnew : ([Review.mk jobId agent prompt output now] : List Review).filter
                (fun r => decide (r.jobId = i)) = [] := by
              simp [Ne.symm hij]
            rw [hnew]
            simpa using inv.reviewOnce i
  | fail jobId msg now =>
    show Inv (failJob jobId msg now s)
    unfold failJob
    refine inv_mapped s inv _ (fun x => by by_cases hx : x.id = jobId <;> simp [hx]) ?_
    intro x _ hxdone
    by_cases hx : x.id = jobId
    · rw [if_pos hx] at hxdone
      simp at hxdone
    · rwa [if_neg hx] at hxdone
  | reset =>
    show Inv (resetStaleJobs s)
    unfold resetStaleJobs
    refine inv_mapped s inv _
      (fun x => by by_cases hx : x.status = JobStatus.running <;> simp [hx]) ?_
    intro x _ hxdone
    by_cases hx : x.status = JobStatus.running
    · rw [if_pos hx] at hxdone
      simp at hxdone
    · rwa [if_neg hx] at hxdone

theorem inv_foldl (ops : List Op) :
    ∀ s : Store, Inv s → Inv (ops.foldl (fun s op => applyOp op s) s) := by
  induction ops with
  | nil => intro s inv; exact inv
  | cons op rest ih =>
    intro s inv
    exact ih (applyOp op s) (inv_applyOp op s inv)

theorem inv_runOps (ops : List Op) : Inv (runOps ops) :=
  inv_foldl ops emptyStore inv_empty

/-- C3: `CompleteJob` runs its status update and review insert in one
transaction: it either commits, leaving the job done with the finish time
set and exactly one associated review, or it fails (injected statement
failure or the `UNIQUE(job_id)` constraint) and the rollback leaves the
store exactly as it was; and over every operation sequence no reachable
state has a done job with zero reviews. -/
theorem completeJob_atomic (s : Store) (jobId : Nat) (agent prompt output : String)
    (now : Nat) (fU fI : Bool) (hex : ∃ j ∈ s.jobs, j.id = jobId) :
    ((completeJob jobId agent prompt output now fU fI s).1 = true →
        statusOf (completeJob jobId agent prompt output now fU fI s).2 jobId
            = some JobStatus.done
        ∧ finishedOf (completeJob jobId agent prompt output now fU fI s).2 jobId = some now
        ∧ reviewCount (completeJob jobId agent prompt output now fU fI s).2 jobId = 1)
    ∧ ((completeJob jobId agent prompt output now fU fI s).1 = false →
        (completeJob jobId agent prompt output now fU fI s).2 = s)
    ∧ (∀ ops : List Op, ∀ j ∈ (runOps ops).jobs, j.status = JobStatus.done →
        1 ≤ reviewCount (runOps ops) j.id) := by
  refine ⟨?_, ?_, ?_⟩
  · intro hok
    unfold completeJob at hok ⊢
    cases fU with
    | true => simp at hok
    | false =>
      cases hins : (fI || s.reviews.any (fun r => decide (r.jobId = jobId))) with
      | true => rw [hins] at hok; simp at hok
      | false =>
        simp only [Bool.false_eq_true, if_false]
        obtain ⟨j, hj, hjid⟩ := hex
        have hfsome : (s.jobs.find? (fun x => decide (x.id = jobId))).isSome := by
          rw [List.find?_isSome]
          exact ⟨j, hj, by simp [hjid]⟩
        have hnone : ∀ r ∈ s.reviews, ¬r.jobId = jobId := by
          have := (Bool.or_eq_false_iff.mp hins).2
          rw [List.any_eq_false] at this
          intro r hr
          simpa using this r hr
        refine ⟨?_, ?_, ?_⟩
        · rw [statusOf_map_upd _ _ _ _
            (fun x => by by_cases hx : x.id = jobId <;> simp [hx]) jobId]
          cases hfind : s.jobs.find? (fun x => decide (x.id = jobId)) with
          | none => rw [hfind] at hfsome; simp at hfsome
          | some x =>
            have hxid : x.id = jobId := by simpa using List.find?_some hfind
            simp only [Option.map_some']
            rw [if_pos hxid]
        · unfold finishedOf
          dsimp only
          rw [find?_map_id_preserving _ _
            (fun x => by by_cases hx : x.id = jobId <;> simp [hx]) jobId]
          cases hfind : s.jobs.find? (fun x => decide (x.id = jobId)) with
          | none => rw [hfind] at hfsome; simp at hfsome
          | some x =>
            have hxid : x.id = jobId := by simpa using List.find?_some hfind
            simp only [Option.map_some']
            rw [if_pos hxid]
            rfl
        · show ((s.reviews ++ [Review.mk jobId agent prompt output now]).filter
              (fun r => decide (r.jobId = jobId))).length = 1
          rw [List.filter_append]
          have hpre : s.reviews.filter (fun r => decide (r.jobId = jobId)) = [] := by
            rw [List.filter_eq_nil_iff]
            intro r hr
            simpa using hnone r hr
          rw [hpre]
          simp
  · intro hfail
    unfold completeJob at hfail ⊢
    cases fU with
    | true => rfl
    | false =>
      cases hins : (fI || s.reviews.any (fun r => decide (r.jobId = jobId))) with
      | true => simp
      | false => rw [hins] at hfail; simp at hfail
  · intro ops j hj hjdone
    obtain ⟨r, hr, hrid⟩ := (inv_runOps ops).doneReview j hj hjdone
    have : r ∈ (runOps ops).reviews.filter (fun x => decide (x.jobId = j.id)) :=
      List.mem_filter.mpr ⟨hr, by simp [hrid]⟩
    have hpos : 0 < ((runOps ops).reviews.filter (fun x => decide (x.jobId = j.id))).length :=
      List.length_pos.mpr (List.ne_nil_of_mem this)
    exact hpos

theorem completeJob_atomic_witness :
    statusOf (completeJob 0 "codex" "p" "o" 9 false false oneQueuedStore).2 0
        = some JobStatus.done
    ∧ finishedOf (completeJob 0 "codex" "p" "o" 9 false false oneQueuedStore).2 0 = some 9
    ∧ reviewCount (completeJob 0 "codex" "p" "o" 9 false false oneQueuedStore).2 0 = 1 :=
  (completeJob_atomic oneQueuedStore 0 "codex" "p" "o" 9 false false (by decide)).1 (by decide)

/-- C10: over every operation sequence at most one review row per job ever
exists (the `UNIQUE(job_id)` constraint makes the insert of `CompleteJob`
fail inside the transaction), and a second `CompleteJob` for a job that
already has a review aborts with the store — including the job's status
and its original review — exactly as before the call. -/
theorem review_unique (ops : List Op) (s : Store) (jobId : Nat)
    (agent prompt output : String) (now : Nat) (h : 1 ≤ reviewCount s jobId) :
    (∀ i, reviewCount (runOps ops) i ≤ 1)
    ∧ completeJob jobId agent prompt output now false false s = (false, s) := by
  constructor
  · exact (inv_runOps ops).reviewOnce
  · have hpos : 0 < (s.reviews.filter (fun r => decide (r.jobId = jobId))).length := h
    obtain ⟨r, hrmem⟩ := List.exists_mem_of_length_pos hpos
    obtain ⟨hr, hrid⟩ := List.mem_filter.mp hrmem
    have hany : s.reviews.any (fun r => decide (r.jobId = jobId)) = true := by
      rw [List.any_eq_true]
      exact ⟨r, hr, hrid⟩
    unfold completeJob
    rw [hany]
    simp

theorem review_unique_witness :
    completeJob 0 "codex" "p2" "o2" 9 false false
        { jobs := [], reviews := [Review.mk 0 "codex" "p" "o" 5], nextId := 1 }
      = (false, { jobs := [], reviews := [Review.mk 0 "codex" "p" "o" 5], nextId := 1 }) :=
  (review_unique [] { jobs := [], reviews := [Review.mk 0 "codex" "p" "o" 5], nextId := 1 }
    0 "codex" "p2" "o2" 9 (by decide)).2

/-! ## Context-file sandboxing (prompt.go, `validateContextFile`) -/

theorem validateContextFile_some {fs : FS} {repoAbs c : FPath} {seen : List FPath}
    {e : ContextEntry} {seen2 : List FPath}
    (h : validateContextFile fs repoAbs c seen = some (e, seen2)) :
    fs.resolve c = some e.resolvedPath
    ∧ isInsideRepo repoAbs e.resolvedPath = true
    ∧ e.resolvedPath ∉ seen
    ∧ seen2 = e.resolvedPath :: seen := by
  unfold validateContextFile at h
  cases h1 : isInsideRepo repoAbs c with
  | false => rw [h1] at h; simp at h
  | true =>
    rw [h1] at h
    simp only [Bool.not_true, Bool.false_eq_true, if_false] at h
    cases hres : fs.resolve c with
    | none => rw [hres] at h; simp at h
    | some resolved =>
      rw [hres] at h
      dsimp only at h
      cases h2 : isInsideRepo repoAbs resolved with
      | false => rw [h2] at h; simp at h
      | true =>
        rw [h2] at h
        simp only [Bool.not_true, Bool.false_eq_true, if_false] at h
        cases hstat : fs.stat resolved with
        | none => rw [hstat] at h; simp at h
        | some k =>
          rw [hstat] at h
          dsimp only at h
          by_cases hk : k = FileKind.regular
          · rw [if_neg (by simp [hk])] at h
            by_cases hseen : resolved ∈ seen
            · rw [if_pos hseen] at h; simp at h
            · rw [if_neg hseen] at h
              simp only [Option.some_inj, Prod.mk.injEq] at h
              obtain ⟨he, hs⟩ := h
              have hrp : e.resolvedPath = resolved := by rw [← he]
              refine ⟨?_, ?_, ?_, ?_⟩
              · rw [hrp]
              · rw [hrp]; exact h2
              · rw [hrp]; exact hseen
              · rw [hrp, ← hs]
          · rw [if_pos hk] at h
            simp at h

theorem validateContextFile_none_of_escape {fs : FS} {repoAbs c : FPath}
    (h : ∀ r, fs.resolve c = some r → isInsideRepo repoAbs r = false)
    (seen : List FPath) :
    validateContextFile fs repoAbs c seen = none := by
  unfold validateContextFile
  cases h1 : isInsideRepo repoAbs c with
  | false => simp [h1]
  | true =>
    simp only [Bool.not_true, Bool.false_eq_true, if_false]
    cases hres : fs.resolve c with
    | none => rfl
    | some resolved =>
      dsimp only
      rw [h resolved hres]
      rfl

theorem validateFold_cons (fs : FS) (repoAbs : FPath) (c : FPath) (rest : List FPath)
    (seen : List FPath) :
    validateFold fs repoAbs (c :: rest) seen
      = match validateContextFile fs repoAbs c seen with
        | none => validateFold fs repoAbs rest seen
        | some (e, seen2) => e :: validateFold fs repoAbs rest seen2 := rfl

theorem validateFold_spec (fs : FS) (repoAbs : FPath) (cands : List FPath) :
    ∀ seen : List FPath,
      (∀ e ∈ validateFold fs repoAbs cands seen,
          isInsideRepo repoAbs e.resolvedPath = true
          ∧ (∃ c ∈ cands, fs.resolve c = some e.resolvedPath)
          ∧ e.resolvedPath ∉ seen)
      ∧ ((validateFold fs repoAbs cands seen).map (·.resolvedPath)).Nodup := by
  induction cands with
  | nil => intro seen; simp [validateFold]
  | cons c rest ih =>
    intro seen
    rw [validateFold_cons]
    cases hv : validateContextFile fs repoAbs c seen with
    | none =>
      obtain ⟨ih1, ih2⟩ := ih seen
      refine ⟨?_, ih2⟩
      intro e he
      obtain ⟨q1, ⟨c2, hc2, hres2⟩, q3⟩ := ih1 e he
      exact ⟨q1, ⟨c2, List.mem_cons_of_mem c hc2, hres2⟩, q3⟩
    | some p =>
      obtain ⟨e0, seen2⟩ := p
      obtain ⟨hres0, hin0, hnot0, hseen2⟩ := validateContextFile_some hv
      obtain ⟨ih1, ih2⟩ := ih seen2
      constructor
      · intro e he
        rcases List.mem_cons.mp he with rfl | he
        · exact ⟨hin0, ⟨c, List.mem_cons_self c rest, hres0⟩, hnot0⟩
        · obtain ⟨q1, ⟨c2, hc2, hres2⟩, q3⟩ := ih1 e he
          rw [hseen2] at q3
          exact ⟨q1, ⟨c2, List.mem_cons_of_mem c hc2, hres2⟩,
            fun hmem => q3 (List.mem_cons_of_mem _ hmem)⟩
      · simp only [List.map_cons, List.nodup_cons]
        refine ⟨?_, ih2⟩
        intro hmem
        obtain ⟨e2, he2, hpe2⟩ := List.mem_map.mp hmem
        have := (ih1 e2 he2).2.2
        rw [hseen2, hpe2] at this
        exact this (List.mem_cons_self _ _)

theorem validateFold_nil_of_escape (fs : FS) (repoAbs : FPath) (cands : List FPath)
    (hall : ∀ c ∈ cands, ∀ r, fs.resolve c = some r → isInsideRepo repoAbs r = false) :
    ∀ seen, validateFold fs repoAbs cands seen = [] := by
  induction cands with
  | nil => intro seen; rfl
  | cons c rest ih =>
    intro seen
    rw [validateFold_cons,
      validateContextFile_none_of_escape (hall c (List.mem_cons_self c rest)) seen]
    exact ih (fun c2 hc2 => hall c2 (List.mem_cons_of_mem c hc2)) seen

/-- C6: every context file the collector accepts resolves (through any
symlink chain) to a path inside the canonicalized repository root and
stems from a configured candidate; accepted entries are deduplicated by
canonical resolved path; and when every candidate resolves outside the
root (or fails to resolve), no entry is collected and the built prompt
gets no context-files section at all. -/
theorem context_sandboxing (fs : FS) (repoPath : FPath) (patterns : List CtxPattern) :
    (∀ e ∈ collectContextEntries fs repoPath patterns,
        isInsideRepo ((fs.resolve repoPath).getD repoPath) e.resolvedPath = true
        ∧ ∃ c ∈ candidatePaths fs ((fs.resolve repoPath).getD repoPath) patterns,
            fs.resolve c = some e.resolvedPath)
    ∧ ((collectContextEntries fs repoPath patterns).map (·.resolvedPath)).Nodup
    ∧ ((∀ c ∈ candidatePaths fs ((fs.resolve repoPath).getD repoPath) patterns,
          ∀ r, fs.resolve c = some r
            → isInsideRepo ((fs.resolve repoPath).getD repoPath) r = false) →
        collectContextEntries fs repoPath patterns = []
        ∧ ∀ budget, writeContextFiles fs repoPath patterns budget = []) := by
  have hcoll : collectContextEntries fs repoPath patterns
      = validateFold fs ((fs.resolve repoPath).getD repoPath)
          (candidatePaths fs ((fs.resolve repoPath).getD repoPath) patterns) [] := rfl
  obtain ⟨h1, h2⟩ := validateFold_spec fs ((fs.resolve repoPath).getD repoPath)
    (candidatePaths fs ((fs.resolve repoPath).getD repoPath) patterns) []
  refine ⟨?_, ?_, ?_⟩
  · intro e he
    rw [hcoll] at he
    obtain ⟨q1, q2, _⟩ := h1 e he
    exact ⟨q1, q2⟩
  · rw [hcoll]
    exact h2
  · intro hall
    have hnil : collectContextEntries fs repoPath patterns = [] := by
      rw [hcoll]
      exact validateFold_nil_of_escape _ _ _ hall []
    refine ⟨hnil, fun budget => ?_⟩
    unfold writeContextFiles
    by_cases hp : patterns = []
    · rw [if_pos hp]
    · rw [if_neg hp]
      simp [hnil]

theorem context_sandboxing_witness :
    collectContextEntries bigFileFS ["repo"] [CtxPattern.lit ["..", "secret"]] = [] :=
  ((context_sandboxing bigFileFS ["repo"] [CtxPattern.lit ["..", "secret"]]).2.2
    (by
      intro c hc r hr
      have hcands : candidatePaths bigFileFS
          ((bigFileFS.resolve ["repo"]).getD ["repo"]) [CtxPattern.lit ["..", "secret"]]
            = [["secret"]] := by decide
      rw [hcands] at hc
      have hc2 : c = ["secret"] := by simpa using hc
      subst hc2
      have hr2 : (["secret"] : FPath) = r := by
        have : bigFileFS.resolve ["secret"] = some ["secret"] := rfl
        rw [this] at hr
        exact Option.some_inj.mp hr
      rw [← hr2]
      decide)).1

/-! ## Context-file budget (prompt.go, `writeContextFiles`) -/

theorem ctxCommit_length (content dp fence fileContent : Str) (wroteAny : Bool) :
    (ctxCommit content dp fence fileContent wroteAny).length
      = content.length + ctxEntryTotal dp fence fileContent wroteAny := by
  unfold ctxCommit ctxEntryTotal ctxHeaderLen
  cases wroteAny <;> simp [List.length_append, str] <;> omega

theorem writeCtxLoop_content_le (fs : FS) (budget : Nat) (entries : List ContextEntry) :
    ∀ (content : Str) (wroteAny : Bool), content.length ≤ budget →
      (writeCtxLoop fs budget entries content wroteAny).1.length ≤ budget := by
  induction entries with
  | nil => intro content wroteAny h; exact h
  | cons e rest ih =>
    intro content wroteAny h
    simp only [writeCtxLoop]
    by_cases h1 : ctxMaxRead budget content.length e.displayPath.length wroteAny ≤ 0
    · rw [if_pos h1]
      exact h
    · rw [if_neg h1]
      cases hfc : fenceForContent (trimSuffixNewline (readContextFile fs e.resolvedPath
          (ctxMaxRead budget content.length e.displayPath.length wroteAny))) with
      | none => exact ih content wroteAny h
      | some fence =>
        dsimp only
        by_cases h2 : budget < content.length
            + ctxEntryTotal e.displayPath fence
                (trimSuffixNewline (readContextFile fs e.resolvedPath
                  (ctxMaxRead budget content.length e.displayPath.length wroteAny))) wroteAny
        · rw [if_pos h2]
          exact h
        · rw [if_neg h2]
          have hc2 : (ctxCommit content e.displayPath fence
              (trimSuffixNewline (readContextFile fs e.resolvedPath
                (ctxMaxRead budget content.length e.displayPath.length wroteAny)))
              wroteAny).length ≤ budget := by
            rw [ctxCommit_length]
            omega
          by_cases h3 : (readContextFile fs e.resolvedPath
              (ctxMaxRead budget content.length e.displayPath.length wroteAny)).length < e.size
          · rw [if_pos h3]
            exact hc2
          · rw [if_neg h3]
            exact ih _ true hc2

/-- C8 amended: the context-files section stays within the budget as files
are committed — the running total is checked before each commit and a file
that would exceed the budget is not written — but the truncation notice is
appended after that check, so the final section can exceed the budget by
up to the 37-byte notice; whenever it does exceed the budget the notice is
present as its suffix. -/
theorem context_budget (fs : FS) (repoPath : FPath) (patterns : List CtxPattern)
    (budget : Nat) :
    (writeContextFiles fs repoPath patterns budget).length
        ≤ budget + truncationNotice.length
    ∧ (budget < (writeContextFiles fs repoPath patterns budget).length →
        truncationNotice <:+ writeContextFiles fs repoPath patterns budget) := by
  unfold writeContextFiles
  by_cases hp : patterns = []
  · rw [if_pos hp]
    exact ⟨by simp, by intro hlt; simp at hlt⟩
  · rw [if_neg hp]
    by_cases he : collectContextEntries fs repoPath patterns = []
    · rw [if_pos he]
      exact ⟨by simp, by intro hlt; simp at hlt⟩
    · rw [if_neg he]
      have hcontent : (writeCtxLoop fs budget (collectContextEntries fs repoPath patterns)
          [] false).1.length ≤ budget :=
        writeCtxLoop_content_le fs budget _ [] false (by simp)
      by_cases hw : (writeCtxLoop fs budget (collectContextEntries fs repoPath patterns)
          [] false).2.1 = false
      · rw [if_pos hw]
        exact ⟨by simp, by intro hlt; simp at hlt⟩
      · rw [if_neg hw]
        by_cases ht : (writeCtxLoop fs budget (collectContextEntries fs repoPath patterns)
            [] false).2.2 = true
        · rw [if_pos ht]
          constructor
          · rw [List.length_append]
            omega
          · intro _
            exact List.suffix_append _ _
        · rw [if_neg ht]
          constructor
          · rw [List.length_append]
            simp only [List.length_nil]
            omega
          · intro hlt
            rw [List.append_nil] at hlt
            omega

theorem context_budget_witness :
    (writeContextFiles constFS ["repo"] [CtxPattern.lit ["a.md"]] 100).length
      ≤ 100 + truncationNotice.length :=
  (context_budget constFS ["repo"] [CtxPattern.lit ["a.md"]] 100).1

theorem trimSuffix_replicate {a : Char} (ha : a ≠ '\n') (n : Nat) :
    trimSuffixNewline (List.replicate n a) = List.replicate n a := by
  unfold trimSuffixNewline
  cases n with
  | zero => simp
  | succ m =>
    have hlast : (List.replicate (m + 1) a).getLast? = some a := by
      rw [List.replicate_succ', List.getLast?_concat]
    rw [hlast, if_neg (by simpa using ha)]

theorem foldl_fence_replicate_other {a : Char} (ha : ¬a = '`') (n : Nat) :
    ∀ p : Nat × Nat,
      List.foldl fenceScanStep p (List.replicate n a) = (p.1, if n = 0 then p.2 else 0) := by
  induction n with
  | zero => intro p; simp
  | succ m ih =>
    intro p
    rw [List.replicate_succ, List.foldl_cons, fenceScanStep_other ha, ih (p.1, 0)]
    by_cases hm : m = 0 <;> simp [hm]

theorem fence_replicate_other {a : Char} (ha : ¬a = '`') (n : Nat) :
    fenceForContent (List.replicate n a) = some (List.replicate 3 '`') := by
  unfold fenceForContent
  rw [foldl_fence_replicate_other ha n (2, 0)]
  dsimp only
  rw [if_neg (by decide)]

theorem ctxEntryTotal_eq (dp fence fc : Str) (w : Bool) :
    ctxEntryTotal dp fence fc w
      = (ctxHeading dp fence).length + fc.length + (ctxClosing fence).length
        + (if w then 0 else ctxHeaderLen) := rfl

theorem writeContextFiles_eq (fs : FS) (repoPath : FPath) (patterns : List CtxPattern)
    (budget : Nat) :
    writeContextFiles fs repoPath patterns budget
      = if patterns = [] then []
        else if collectContextEntries fs repoPath patterns = [] then []
        else if (writeCtxLoop fs budget (collectContextEntries fs repoPath patterns)
            [] false).2.1 = false then []
        else
          (writeCtxLoop fs budget (collectContextEntries fs repoPath patterns) [] false).1
            ++ (if (writeCtxLoop fs budget (collectContextEntries fs repoPath patterns)
                [] false).2.2 then truncationNotice else []) := rfl

/-- One loop step for a single entry whose bounded read succeeds, fits the
budget, and is shorter than the file: the file commits and the loop stops
with the truncation flag set. -/
theorem writeCtxLoop_single_truncated (fs : FS) (budget : Nat) (e : ContextEntry)
    (fence : Str)
    (h1 : ¬ctxMaxRead budget (List.length ([] : Str)) e.displayPath.length false ≤ 0)
    (hfc : fenceForContent (trimSuffixNewline (readContextFile fs e.resolvedPath
        (ctxMaxRead budget (List.length ([] : Str)) e.displayPath.length false)))
        = some fence)
    (h2 : ¬budget < List.length ([] : Str)
        + ctxEntryTotal e.displayPath fence
            (trimSuffixNewline (readContextFile fs e.resolvedPath
              (ctxMaxRead budget (List.length ([] : Str)) e.displayPath.length false))) false)
    (h3 : (readContextFile fs e.resolvedPath
        (ctxMaxRead budget (List.length ([] : Str)) e.displayPath.length false)).length
        < e.size) :
    writeCtxLoop fs budget [e] [] false
      = (ctxCommit [] e.displayPath fence
          (trimSuffixNewline (readContextFile fs e.resolvedPath
            (ctxMaxRead budget (List.length ([] : Str)) e.displayPath.length false))) false,
         true, true) := by
  simp only [writeCtxLoop]
  rw [if_neg h1, hfc]
  dsimp only
  rw [if_neg h2, if_pos h3]

set_option maxRecDepth 10000 in
/-- C8 counterexample: at the configured quarter-of-ceiling budget (64000
bytes) a single 64000-byte context file fills the section to 63966 bytes,
within budget, and is then marked truncated; the 37-byte truncation notice
is appended after the budget check, so the emitted section is 64003 bytes
— strictly larger than the budget the claim allows. -/
theorem context_budget_counterexample :
    maxPromptSize / 4
      < (writeContextFiles bigFileFS ["repo"] [CtxPattern.lit ["a.md"]]
          (maxPromptSize / 4)).length := by
  have hB : maxPromptSize / 4 = 64000 := by norm_num [maxPromptSize]
  have hentries : collectContextEntries bigFileFS ["repo"] [CtxPattern.lit ["a.md"]]
      = [ContextEntry.mk (str "a.md") ["repo", "a.md"] 64000] := by decide
  have hdp : (ContextEntry.mk (str "a.md") ["repo", "a.md"] 64000).displayPath
      = str "a.md" := rfl
  have hrp : (ContextEntry.mk (str "a.md") ["repo", "a.md"] 64000).resolvedPath
      = ["repo", "a.md"] := rfl
  have hsz : (ContextEntry.mk (str "a.md") ["repo", "a.md"] 64000).size = 64000 := rfl
  have hmr : ctxMaxRead 64000 (List.length ([] : Str)) (List.length (str "a.md")) false
      = 63736 := by decide
  have hread : readContextFile bigFileFS ["repo", "a.md"] 63736
      = List.replicate 63736 'a' := by
    unfold readContextFile
    rw [if_neg (by decide : ¬(63736 : Int) ≤ 0)]
    have hcontent : bigFileFS.content ["repo", "a.md"] = List.replicate 64000 'a' := rfl
    have htn : Int.toNat 63736 = 63736 := rfl
    rw [hcontent, htn, List.take_replicate, min_eq_left (by norm_num)]
  have htrim := trimSuffix_replicate (by decide : ('a' : Char) ≠ '\n') 63736
  have hfence := fence_replicate_other (by decide : ¬('a' : Char) = '`') 63736
  have hET : ctxEntryTotal (str "a.md") (List.replicate 3 '`')
      (List.replicate 63736 'a') false = 63966 := by
    rw [ctxEntryTotal_eq]
    have h14 : (ctxHeading (str "a.md") (List.replicate 3 '`')).length = 14 := by decide
    have h6 : (ctxClosing (List.replicate 3 '`')).length = 6 := by decide
    have hch : ctxHeaderLen = 210 := by decide
    rw [h14, h6, List.length_replicate, if_neg (by decide : ¬false = true), hch]
  have hloop : writeCtxLoop bigFileFS 64000
      [ContextEntry.mk (str "a.md") ["repo", "a.md"] 64000] [] false
      = (ctxCommit [] (str "a.md") (List.replicate 3 '`') (List.replicate 63736 'a') false,
         true, true) := by
    have h1 : ¬ctxMaxRead 64000 (List.length ([] : Str))
        (ContextEntry.mk (str "a.md") ["repo", "a.md"] 64000).displayPath.length false ≤ 0 := by
      rw [hdp, hmr]
      decide
    have hreadfull : readContextFile bigFileFS
        (ContextEntry.mk (str "a.md") ["repo", "a.md"] 64000).resolvedPath
        (ctxMaxRead 64000 (List.length ([] : Str))
          (ContextEntry.mk (str "a.md") ["repo", "a.md"] 64000).displayPath.length false)
        = List.replicate 63736 'a' := by
      rw [hdp, hrp, hmr, hread]
    have hfc : fenceForContent (trimSuffixNewline (readContextFile bigFileFS
        (ContextEntry.mk (str "a.md") ["repo", "a.md"] 64000).resolvedPath
        (ctxMaxRead 64000 (List.length ([] : Str))
          (ContextEntry.mk (str "a.md") ["repo", "a.md"] 64000).displayPath.length false)))
        = some (List.replicate 3 '`') := by
      rw [hreadfull, htrim, hfence]
    have h2 : ¬(64000 : Nat) < List.length ([] : Str)
        + ctxEntryTotal (ContextEntry.mk (str "a.md") ["repo", "a.md"] 64000).displayPath
            (List.replicate 3 '`')
            (trimSuffixNewline (readContextFile bigFileFS
              (ContextEntry.mk (str "a.md") ["repo", "a.md"] 64000).resolvedPath
              (ctxMaxRead 64000 (List.length ([] : Str))
                (ContextEntry.mk (str "a.md") ["repo", "a.md"] 64000).displayPath.length
                false))) false := by
      rw [hreadfull, htrim, hdp, hET]
      decide
    have h3 : (readContextFile bigFileFS
        (ContextEntry.mk (str "a.md") ["repo", "a.md"] 64000).resolvedPath
        (ctxMaxRead 64000 (List.length ([] : Str))
          (ContextEntry.mk (str "a.md") ["repo", "a.md"] 64000).displayPath.length
          false)).length
        < (ContextEntry.mk (str "a.md") ["repo", "a.md"] 64000).size := by
      rw [hreadfull, List.length_replicate, hsz]
      norm_num
    have := writeCtxLoop_single_truncated bigFileFS 64000
      (ContextEntry.mk (str "a.md") ["repo", "a.md"] 64000) (List.replicate 3 '`')
      h1 hfc h2 h3
    rw [this, hreadfull, htrim, hdp]
  have hcommit : (ctxCommit [] (str "a.md") (List.replicate 3 '`')
      (List.replicate 63736 'a') false).length = 63966 := by
    rw [ctxCommit_length, hET]
    simp
  rw [hB, writeContextFiles_eq]
  rw [if_neg (by decide : ¬([CtxPattern.lit ["a.md"]] : List CtxPattern) = []), hentries]
  rw [if_neg (by decide : ¬([ContextEntry.mk (str "a.md") ["repo", "a.md"] 64000]
      : List ContextEntry) = []), hloop]
  rw [if_neg (by decide : ¬(true = false)), if_pos rfl]
  have hnl : truncationNotice.length = 37 := by decide
  calc (64000 : Nat) < 63966 + 37 := by norm_num
    _ = (ctxCommit [] (str "a.md") (List.replicate 3 '`')
        (List.replicate 63736 'a') false).length + truncationNotice.length := by
      rw [hcommit, hnl]
    _ = (ctxCommit [] (str "a.md") (List.replicate 3 '`')
        (List.replicate 63736 'a') false ++ truncationNotice).length :=
      (List.length_append _ _).symm

/-! ## Prompt size policy (prompt.go, the three builders) -/

theorem buildSinglePrompt_eq (sys : Str) (cfg : Option RepoConfig) (fs : FS) (rp : FPath)
    (cc : Nat) (cf : Option (List ReviewContextM)) (att : List AttemptReview)
    (sha author subject body diff : Str) :
    buildSinglePrompt sys cfg fs rp cc cf att sha author subject body diff
      = if maxPromptSize
            < (singlePrefix sys cfg fs rp cc cf att sha author subject body).length
              + (str "### Diff\n\n" ++ diffBlock diff).length then
          singlePrefix sys cfg fs rp cc cf att sha author subject body
            ++ str "### Diff\n\n"
            ++ str "(Diff too large to include - please review the commit directly)\n"
            ++ str "View with: git show " ++ sha ++ str "\n"
        else
          singlePrefix sys cfg fs rp cc cf att sha author subject body
            ++ (str "### Diff\n\n" ++ diffBlock diff) := rfl

theorem buildRangePrompt_eq (sys : Str) (cfg : Option RepoConfig) (fs : FS) (rp : FPath)
    (cc : Nat) (cf : Option (List ReviewContextM)) (att : List AttemptReview)
    (commits : List (Str × Option Str)) (rangeRef diff : Str) :
    buildRangePrompt sys cfg fs rp cc cf att commits rangeRef diff
      = if maxPromptSize
            < (rangePrefix sys cfg fs rp cc cf att commits).length
              + (str "### Combined Diff\n\n" ++ diffBlock diff).length then
          rangePrefix sys cfg fs rp cc cf att commits
            ++ str "### Combined Diff\n\n"
            ++ str "(Diff too large to include - please review the commits directly)\n"
            ++ str "View with: git diff " ++ rangeRef ++ str "\n"
        else
          rangePrefix sys cfg fs rp cc cf att commits
            ++ (str "### Combined Diff\n\n" ++ diffBlock diff) := rfl

theorem buildDirty_eq (sys : Str) (cfg : Option RepoConfig) (fs : FS) (rp : FPath)
    (cc : Nat) (cf : Option (List ReviewContextM)) (diff : Str) :
    buildDirty sys cfg fs rp cc cf diff
      = if maxPromptSize < (dirtyPrefix sys cfg fs rp cc cf).length
            + (str "### Diff\n\n" ++ diffBlock diff).length then
          if (1000 : Int) < (maxPromptSize : Int)
              - ((dirtyPrefix sys cfg fs rp cc cf ++ str "### Diff\n\n"
                ++ str "(Diff too large to include in full)\n").length : Int) - 100 then
            dirtyPrefix sys cfg fs rp cc cf ++ str "### Diff\n\n"
              ++ str "(Diff too large to include in full)\n" ++ str "```diff\n"
              ++ diff.take ((maxPromptSize : Int)
                  - ((dirtyPrefix sys cfg fs rp cc cf ++ str "### Diff\n\n"
                    ++ str "(Diff too large to include in full)\n").length : Int)
                  - 100).toNat
              ++ str "\n... (truncated)\n" ++ str "```\n"
          else
            dirtyPrefix sys cfg fs rp cc cf ++ str "### Diff\n\n"
              ++ str "(Diff too large to include in full)\n"
        else dirtyPrefix sys cfg fs rp cc cf
          ++ (str "### Diff\n\n" ++ diffBlock diff) := rfl

theorem dropWhile_whitespace_replicate {a : Char} (ha : a.isWhitespace = false) (n : Nat) :
    (List.replicate n a).dropWhile Char.isWhitespace = List.replicate n a := by
  cases n with
  | zero => rfl
  | succ n =>
    rw [List.replicate_succ]
    simp [List.dropWhile_cons, ha]

theorem trimSpace_replicate {a : Char} (ha : a.isWhitespace = false) (n : Nat) :
    trimSpace (List.replicate n a) = List.replicate n a := by
  unfold trimSpace
  rw [dropWhile_whitespace_replicate ha, List.reverse_replicate,
    dropWhile_whitespace_replicate ha, List.reverse_replicate]

theorem writeProjectGuidelines_of_ne (g : Str) (h : ¬g = []) :
    writeProjectGuidelines g
      = projectGuidelinesHeader ++ str "\n" ++ trimSpace g ++ str "\n\n" := by
  unfold writeProjectGuidelines
  rw [if_neg h]

theorem configSections_some (c : RepoConfig) (fs : FS) (rp : FPath) :
    configSections (some c) fs rp
      = writeProjectGuidelines c.reviewGuidelines
        ++ writeContextFiles fs rp c.contextFiles (maxPromptSize / 4) := rfl

theorem dirtyPrefix_eq (sys : Str) (cfg : Option RepoConfig) (fs : FS) (rp : FPath)
    (cc : Nat) (cf : Option (List ReviewContextM)) :
    dirtyPrefix sys cfg fs rp cc cf
      = sys ++ str "\n" ++ configSections cfg fs rp ++ previousReviewsSection cc cf
        ++ str "## Uncommitted Changes\n\n"
        ++ str "The following changes have not yet been committed.\n\n" := rfl

theorem len_append2 (x y z : Str) :
    (x ++ y ++ z).length = x.length + y.length + z.length := by
  rw [List.length_append, List.length_append]

set_option maxRecDepth 10000 in
theorem dirtyPrefix_length (sys : Str) (cfg : Option RepoConfig) (fs : FS) (rp : FPath)
    (cc : Nat) (cf : Option (List ReviewContextM)) :
    (dirtyPrefix sys cfg fs rp cc cf).length
      = sys.length + (configSections cfg fs rp).length
        + (previousReviewsSection cc cf).length + 77 := by
  rw [dirtyPrefix_eq]
  simp only [List.length_append]
  have e1 : (str "\n").length = 1 := by decide
  have e2 : (str "## Uncommitted Changes\n\n").length = 24 := by decide
  have e3 : (str "The following changes have not yet been committed.\n\n").length = 52 := by
    decide
  rw [e1, e2, e3]
  omega

theorem configSections_some_length (c : RepoConfig) (fs : FS) (rp : FPath) :
    (configSections (some c) fs rp).length
      = (writeProjectGuidelines c.reviewGuidelines).length
        + (writeContextFiles fs rp c.contextFiles (maxPromptSize / 4)).length := by
  rw [configSections_some]
  exact List.length_append _ _

set_option maxRecDepth 10000 in
theorem writeProjectGuidelines_length_of_ne (g : Str) (h : ¬g = []) :
    (writeProjectGuidelines g).length = (trimSpace g).length + 205 := by
  rw [writeProjectGuidelines_of_ne g h]
  simp only [List.length_append]
  have e1 : projectGuidelinesHeader.length = 202 := by decide
  have e2 : (str "\n").length = 1 := by decide
  have e3 : (str "\n\n").length = 2 := by decide
  rw [e1, e2, e3]
  omega

/-- C5 (amended): each builder keeps its diff section within the ceiling —
when the assembled prefix plus the diff section would exceed
`MaxPromptSize`, single and range prompts replace the diff with an
out-of-band pointer (`git show` / `git diff`) and dirty prompts truncate
the diff in place with a truncation marker when more than 1000 bytes of
room remain — and the whole prompt stays within the ceiling whenever the
prefix assembled before the diff is small enough (prefix + 95 + SHA length
for single commits, prefix + 105 + range-ref length for ranges, prefix +
46 for dirty changes). The prefix itself (system prompt, guidelines,
context files, review history) is never size-checked by the code. -/
theorem prompt_size_policy :
    (∀ (sys : Str) (cfg : Option RepoConfig) (fs : FS) (rp : FPath) (cc : Nat)
        (cf : Option (List ReviewContextM)) (att : List AttemptReview)
        (sha author subject body diff : Str),
      maxPromptSize
          < (singlePrefix sys cfg fs rp cc cf att sha author subject body).length
            + (str "### Diff\n\n" ++ diffBlock diff).length →
        buildSinglePrompt sys cfg fs rp cc cf att sha author subject body diff
          = singlePrefix sys cfg fs rp cc cf att sha author subject body
            ++ str "### Diff\n\n"
            ++ str "(Diff too large to include - please review the commit directly)\n"
            ++ str "View with: git show " ++ sha ++ str "\n")
    ∧ (∀ (sys : Str) (cfg : Option RepoConfig) (fs : FS) (rp : FPath) (cc : Nat)
        (cf : Option (List ReviewContextM)) (att : List AttemptReview)
        (commits : List (Str × Option Str)) (rangeRef diff : Str),
      maxPromptSize
          < (rangePrefix sys cfg fs rp cc cf att commits).length
            + (str "### Combined Diff\n\n" ++ diffBlock diff).length →
        buildRangePrompt sys cfg fs rp cc cf att commits rangeRef diff
          = rangePrefix sys cfg fs rp cc cf att commits
            ++ str "### Combined Diff\n\n"
            ++ str "(Diff too large to include - please review the commits directly)\n"
            ++ str "View with: git diff " ++ rangeRef ++ str "\n")
    ∧ (∀ (sys : Str) (cfg : Option RepoConfig) (fs : FS) (rp : FPath) (cc : Nat)
        (cf : Option (List ReviewContextM)) (diff : Str),
      maxPromptSize < (dirtyPrefix sys cfg fs rp cc cf).length
          + (str "### Diff\n\n" ++ diffBlock diff).length →
      (1000 : Int) < (maxPromptSize : Int)
          - ((dirtyPrefix sys cfg fs rp cc cf ++ str "### Diff\n\n"
            ++ str "(Diff too large to include in full)\n").length : Int) - 100 →
        buildDirty sys cfg fs rp cc cf diff
          = dirtyPrefix sys cfg fs rp cc cf ++ str "### Diff\n\n"
            ++ str "(Diff too large to include in full)\n" ++ str "```diff\n"
            ++ diff.take ((maxPromptSize : Int)
                - ((dirtyPrefix sys cfg fs rp cc cf ++ str "### Diff\n\n"
                  ++ str "(Diff too large to include in full)\n").length : Int)
                - 100).toNat
            ++ str "\n... (truncated)\n" ++ str "```\n")
    ∧ (∀ (sys : Str) (cfg : Option RepoConfig) (fs : FS) (rp : FPath) (cc : Nat)
        (cf : Option (List ReviewContextM)) (att : List AttemptReview)
        (sha author subject body diff : Str),
      (singlePrefix sys cfg fs rp cc cf att sha author subject body).length
          + 95 + sha.length ≤ maxPromptSize →
        (buildSinglePrompt sys cfg fs rp cc cf att sha author subject body diff).length
          ≤ maxPromptSize)
    ∧ (∀ (sys : Str) (cfg : Option RepoConfig) (fs : FS) (rp : FPath) (cc : Nat)
        (cf : Option (List ReviewContextM)) (att : List AttemptReview)
        (commits : List (Str × Option Str)) (rangeRef diff : Str),
      (rangePrefix sys cfg fs rp cc cf att commits).length
          + 105 + rangeRef.length ≤ maxPromptSize →
        (buildRangePrompt sys cfg fs rp cc cf att commits rangeRef diff).length
          ≤ maxPromptSize)
    ∧ (∀ (sys : Str) (cfg : Option RepoConfig) (fs : FS) (rp : FPath) (cc : Nat)
        (cf : Option (List ReviewContextM)) (diff : Str),
      (dirtyPrefix sys cfg fs rp cc cf).length + 46 ≤ maxPromptSize →
        (buildDirty sys cfg fs rp cc cf diff).length ≤ maxPromptSize) := by
  refine ⟨?_, ?_, ?_, ?_, ?_, ?_⟩
  · intro sys cfg fs rp cc cf att sha author subject body diff h
    rw [buildSinglePrompt_eq, if_pos h]
  · intro sys cfg fs rp cc cf att commits rangeRef diff h
    rw [buildRangePrompt_eq, if_pos h]
  · intro sys cfg fs rp cc cf diff h1 h2
    rw [buildDirty_eq, if_pos h1, if_pos h2]
  · intro sys cfg fs rp cc cf att sha author subject body diff h
    rw [buildSinglePrompt_eq]
    by_cases hc : maxPromptSize
        < (singlePrefix sys cfg fs rp cc cf att sha author subject body).length
          + (str "### Diff\n\n" ++ diffBlock diff).length
    · rw [if_pos hc]
      simp only [List.length_append]
      have e1 : (str "### Diff\n\n").length = 10 := by decide
      have e2 : (str "(Diff too large to include - please review the commit directly)\n").length
          = 64 := by decide
      have e3 : (str "View with: git show ").length = 20 := by decide
      have e4 : (str "\n").length = 1 := by decide
      rw [e1, e2, e3, e4]
      omega
    · rw [if_neg hc]
      rw [List.length_append]
      omega
  · intro sys cfg fs rp cc cf att commits rangeRef diff h
    rw [buildRangePrompt_eq]
    by_cases hc : maxPromptSize
        < (rangePrefix sys cfg fs rp cc cf att commits).length
          + (str "### Combined Diff\n\n" ++ diffBlock diff).length
    · rw [if_pos hc]
      simp only [List.length_append]
      have e1 : (str "### Combined Diff\n\n").length = 19 := by decide
      have e2 : (str "(Diff too large to include - please review the commits directly)\n").length
          = 65 := by decide
      have e3 : (str "View with: git diff ").length = 20 := by decide
      have e4 : (str "\n").length = 1 := by decide
      rw [e1, e2, e3, e4]
      omega
    · rw [if_neg hc]
      rw [List.length_append]
      omega
  · intro sys cfg fs rp cc cf diff h
    rw [buildDirty_eq]
    by_cases hc1 : maxPromptSize < (dirtyPrefix sys cfg fs rp cc cf).length
        + (str "### Diff\n\n" ++ diffBlock diff).length
    · rw [if_pos hc1]
      by_cases hc2 : (1000 : Int) < (maxPromptSize : Int)
          - ((dirtyPrefix sys cfg fs rp cc cf ++ str "### Diff\n\n"
            ++ str "(Diff too large to include in full)\n").length : Int) - 100
      · rw [if_pos hc2]
        have e1 : (str "### Diff\n\n").length = 10 := by decide
        have e2 : (str "(Diff too large to include in full)\n").length = 36 := by decide
        have e3 : (str "```diff\n").length = 8 := by decide
        have e4 : (str "\n... (truncated)\n").length = 17 := by decide
        have e5 : (str "```\n").length = 4 := by decide
        have htake : (diff.take ((maxPromptSize : Int)
            - ((dirtyPrefix sys cfg fs rp cc cf ++ str "### Diff\n\n"
              ++ str "(Diff too large to include in full)\n").length : Int)
            - 100).toNat).length
            ≤ ((maxPromptSize : Int)
            - ((dirtyPrefix sys cfg fs rp cc cf ++ str "### Diff\n\n"
              ++ str "(Diff too large to include in full)\n").length : Int)
            - 100).toNat := by
          rw [List.length_take]
          exact min_le_left _ _
        simp only [List.length_append] at hc2 htake ⊢
        rw [e1, e2] at hc2
        rw [e1, e2] at htake
        rw [e1, e2, e3, e4, e5]
        omega
      · rw [if_neg hc2]
        simp only [List.length_append]
        have e1 : (str "### Diff\n\n").length = 10 := by decide
        have e2 : (str "(Diff too large to include in full)\n").length = 36 := by decide
        rw [e1, e2]
        omega
    · rw [if_neg hc1]
      rw [List.length_append]
      omega

set_option maxRecDepth 10000 in
/-- C5 witness: the dirty-builder ceiling bound applied at a concrete small
input whose prefix satisfies the size hypothesis. -/
theorem prompt_size_policy_witness :
    (dirtyPrefix [] none constFS [] 0 none).length + 46 ≤ maxPromptSize
      ∧ (buildDirty [] none constFS [] 0 none []).length ≤ maxPromptSize :=
  ⟨by decide, prompt_size_policy.2.2.2.2.2 [] none constFS [] 0 none [] (by decide)⟩

set_option maxRecDepth 10000 in
/-- C5 counterexample: a configured guidelines text of `MaxPromptSize + 1`
bytes alone pushes the dirty prompt to 256329 bytes: the prefix assembled
before the diff is never size-checked, so the claimed 250 KB ceiling on
the total prompt does not hold for every input. -/
theorem prompt_ceiling_counterexample :
    maxPromptSize
      < (buildDirty [] (some (RepoConfig.mk (List.replicate (maxPromptSize + 1) 'a') []))
          constFS ["repo"] 0 none []).length := by
  have hG : (List.replicate (maxPromptSize + 1) 'a').length = 256001 := by
    rw [List.length_replicate]
    norm_num [maxPromptSize]
  have hne : ¬(List.replicate (maxPromptSize + 1) 'a' = ([] : Str)) := by
    intro hh
    rw [hh] at hG
    simp at hG
  have htrim : trimSpace (List.replicate (maxPromptSize + 1) 'a')
      = List.replicate (maxPromptSize + 1) 'a' :=
    trimSpace_replicate (by decide) (maxPromptSize + 1)
  have htl : (trimSpace (List.replicate (maxPromptSize + 1) 'a')).length = 256001 := by
    rw [htrim]
    exact hG
  have hwgl : (writeProjectGuidelines (List.replicate (maxPromptSize + 1) 'a')).length
      = 256206 := by
    rw [writeProjectGuidelines_length_of_ne _ hne, htl]
  have hwcf : writeContextFiles constFS ["repo"] [] (maxPromptSize / 4) = [] := by
    rw [writeContextFiles_eq]
    rw [if_pos rfl]
  have hwcfl : (writeContextFiles constFS ["repo"] [] (maxPromptSize / 4)).length = 0 := by
    rw [hwcf]
    rfl
  have hrg : (RepoConfig.mk (List.replicate (maxPromptSize + 1) 'a') []).reviewGuidelines
      = List.replicate (maxPromptSize + 1) 'a' := rfl
  have hcfp : (RepoConfig.mk (List.replicate (maxPromptSize + 1) 'a') []).contextFiles
      = [] := rfl
  have hcsl : (configSections
      (some (RepoConfig.mk (List.replicate (maxPromptSize + 1) 'a') [])) constFS
      ["repo"]).length = 256206 := by
    rw [configSections_some_length, hrg, hcfp, hwgl, hwcfl]
  have hprs : previousReviewsSection 0 none = ([] : Str) := rfl
  have hprsl : (previousReviewsSection 0 none).length = 0 := by
    rw [hprs]
    rfl
  have e0 : ([] : Str).length = 0 := rfl
  have hdpl : (dirtyPrefix []
      (some (RepoConfig.mk (List.replicate (maxPromptSize + 1) 'a') []))
      constFS ["repo"] 0 none).length = 256283 := by
    rw [dirtyPrefix_length, hcsl, hprsl, e0]
  rw [buildDirty_eq]
  have hds : (str "### Diff\n\n" ++ diffBlock ([] : Str)).length = 23 := by decide
  have h1 : maxPromptSize
      < (dirtyPrefix []
          (some (RepoConfig.mk (List.replicate (maxPromptSize + 1) 'a') []))
          constFS ["repo"] 0 none).length
        + (str "### Diff\n\n" ++ diffBlock ([] : Str)).length := by
    rw [hdpl, hds]
    norm_num [maxPromptSize]
  rw [if_pos h1]
  have e1 : (str "### Diff\n\n").length = 10 := by decide
  have e2 : (str "(Diff too large to include in full)\n").length = 36 := by decide
  have hsb2 : (dirtyPrefix []
      (some (RepoConfig.mk (List.replicate (maxPromptSize + 1) 'a') []))
      constFS ["repo"] 0 none ++ str "### Diff\n\n"
      ++ str "(Diff too large to include in full)\n").length = 256329 := by
    rw [len_append2, hdpl, e1, e2]
  have h2 : ¬((1000 : Int) < (maxPromptSize : Int)
      - ((dirtyPrefix []
          (some (RepoConfig.mk (List.replicate (maxPromptSize + 1) 'a') []))
          constFS ["repo"] 0 none ++ str "### Diff\n\n"
          ++ str "(Diff too large to include in full)\n").length : Int) - 100) := by
    rw [hsb2]
    norm_num [maxPromptSize]
  rw [if_neg h2]
  calc maxPromptSize < 256329 := by norm_num [maxPromptSize]
    _ = (dirtyPrefix []
        (some (RepoConfig.mk (List.replicate (maxPromptSize + 1) 'a') []))
        constFS ["repo"] 0 none ++ str "### Diff\n\n"
        ++ str "(Diff too large to include in full)\n").length := hsb2.symm

/-- C4 counterexample: `FailJob` has no status guard, so calling it on a
job that is already done moves the job backwards from done to failed — a
transition the claim rules out. -/
theorem status_forward_counterexample :
    statusOf (runOps [Op.enqueue 1 (some 1) "abc123" "codex" 0, Op.claim "w" 1,
        Op.complete 0 "codex" "p" "o" 2 false false]) 0 = some JobStatus.done
    ∧ statusOf (applyOp (Op.fail 0 "boom" 3)
        (runOps [Op.enqueue 1 (some 1) "abc123" "codex" 0, Op.claim "w" 1,
          Op.complete 0 "codex" "p" "o" 2 false false])) 0 = some JobStatus.failed
    ∧ forwardOK (isResetOp (Op.fail 0 "boom" 3)) (some JobStatus.done) (some JobStatus.failed)
        = false := by
  refine ⟨by decide, by decide, by decide⟩

end Roborev




